import Mathlib

/-!
# Verification of the newsgoat feed-refresh core

Shallow embedding of the repository's feed fetcher
(`internal/feeds/manager.go`), its SQL store operations
(`sql/queries.sql`, `sql/schema.sql`) and the bounded-concurrency task
scheduler (`internal/updater/updater.go`, `internal/tasks/types.go`),
together with proofs of the specification's claims about them.

Database rows are modelled as Lean structures, the feed/item tables as
lists of rows, times as unbounded integers (seconds), and the external
collaborators (HTTP transport, feed-document parser, fallible item
writes) as explicit inputs to the refresh function.
-/

deriving instance DecidableEq for Except

namespace NewsGoat

/-! ## Data model (sql/schema.sql) -/

/-- A row of the `feeds` table (schema.sql).  `Option` models SQL NULL;
times are integer seconds. -/
structure Feed where
  id : Int
  url : String
  title : String
  description : String
  lastUpdated : Option Int
  lastError : Option String
  lastErrorTime : Option Int
  visible : Bool
  etag : Option String
  lastModified : Option String
  cacheControlMaxAge : Option Int
deriving Repr, DecidableEq

/-- A row of the `items` table (schema.sql). -/
structure Item where
  id : Int
  feedId : Int
  guid : String
  title : String
  description : String
  content : String
  link : String
  published : Option Int
deriving Repr, DecidableEq

/-- The persistent store: the `feeds` and `items` tables plus the
autoincrement counter backing `items.id`. -/
structure DB where
  feeds : List Feed
  items : List Item
  nextItemId : Int
deriving Repr, DecidableEq

/-! ## Store queries (sql/queries.sql) -/

/-- `GetFeed`: `SELECT * FROM feeds WHERE id = ?`. -/
def getFeed (db : DB) (feedID : Int) : Option Feed :=
  db.feeds.find? (fun f => f.id == feedID)

/-- `UpdateFeed`: sets title, description, last_updated, etag,
last_modified and cache_control_max_age on the row with the given id. -/
def updateFeed (db : DB) (feedID : Int) (title description : String)
    (lastUpdated : Option Int) (etag lastModified : Option String)
    (cacheControlMaxAge : Option Int) : DB :=
  { db with feeds := db.feeds.map (fun f =>
      if f.id == feedID then
        { f with title := title, description := description,
                 lastUpdated := lastUpdated, etag := etag,
                 lastModified := lastModified,
                 cacheControlMaxAge := cacheControlMaxAge }
      else f) }

/-- `UpdateFeedError`: sets last_error and last_error_time. -/
def updateFeedError (db : DB) (feedID : Int) (lastError : String)
    (lastErrorTime : Int) : DB :=
  { db with feeds := db.feeds.map (fun f =>
      if f.id == feedID then
        { f with lastError := some lastError,
                 lastErrorTime := some lastErrorTime }
      else f) }

/-- `ClearFeedError`: sets last_error and last_error_time to NULL. -/
def clearFeedError (db : DB) (feedID : Int) : DB :=
  { db with feeds := db.feeds.map (fun f =>
      if f.id == feedID then
        { f with lastError := none, lastErrorTime := none }
      else f) }

/-- The parameter record of the `UpsertItem` query. -/
structure UpsertItemParams where
  feedId : Int
  guid : String
  title : String
  description : String
  content : String
  link : String
  published : Option Int
deriving Repr, DecidableEq

/-- Whether an `items` row conflicts with the upsert key
`(feed_id, guid)` of the given parameters. -/
def itemKeyMatches (p : UpsertItemParams) (it : Item) : Bool :=
  it.feedId == p.feedId && it.guid == p.guid

/-- The `DO UPDATE SET` clause of `UpsertItem`: overwrite the mutable
columns title, description, content, link, published. -/
def overwriteItem (it : Item) (p : UpsertItemParams) : Item :=
  { it with title := p.title, description := p.description,
            content := p.content, link := p.link,
            published := p.published }

/-- A freshly inserted `items` row with the next autoincrement id. -/
def newItemRow (rowId : Int) (p : UpsertItemParams) : Item :=
  { id := rowId, feedId := p.feedId, guid := p.guid, title := p.title,
    description := p.description, content := p.content, link := p.link,
    published := p.published }

/-- `UpsertItem` on the `items` table:
`INSERT ... ON CONFLICT(feed_id, guid) DO UPDATE SET ...`
(queries.sql lines 64-73).  Returns the updated table and
autoincrement counter. -/
def upsertItemRows (rows : List Item) (nextId : Int) (p : UpsertItemParams) :
    List Item × Int :=
  if rows.any (itemKeyMatches p) then
    (rows.map (fun it => if itemKeyMatches p it then overwriteItem it p else it),
     nextId)
  else
    (rows ++ [newItemRow nextId p], nextId + 1)

/-- `UpsertItem` lifted to the whole store. -/
def upsertItem (db : DB) (p : UpsertItemParams) : DB :=
  let r := upsertItemRows db.items db.nextItemId p
  { db with items := r.1, nextItemId := r.2 }

/-! ## Cache-Control parsing (manager.go, `parseCacheControl`)

The Go `strings` helpers used by `parseCacheControl` are translated
here on the character-list view of strings so that every definition is
executable by the kernel. -/

/-- Go's `unicode.IsSpace` restricted to Latin-1 (all a header value
can contain): space, tab, newline, vertical tab, form feed, carriage
return, next-line and no-break space. -/
def goIsSpace (c : Char) : Bool :=
  c == ' ' || c == '\t' || c == '\n' || c == '\x0b' || c == '\x0c' ||
    c == '\r' || c == '\x85' || c == '\xa0'

/-- `strings.TrimSpace`: drop leading and trailing whitespace. -/
def goTrimSpace (s : String) : String :=
  String.mk (((s.toList.dropWhile goIsSpace).reverse.dropWhile goIsSpace).reverse)

/-- Helper for `goSplit`: accumulate the current field (reversed). -/
def goSplitAux (sep : Char) : List Char → List Char → List String
  | [], acc => [String.mk acc.reverse]
  | c :: cs, acc =>
    if c == sep then String.mk acc.reverse :: goSplitAux sep cs []
    else goSplitAux sep cs (c :: acc)

/-- `strings.Split` with a one-character separator. -/
def goSplit (s : String) (sep : Char) : List String :=
  goSplitAux sep s.toList []

/-- `strings.HasPrefix`. -/
def goStartsWith (s pre : String) : Bool :=
  pre.toList.isPrefixOf s.toList

/-- `strings.TrimPrefix` for a prefix of `n` characters that is known
to be present: drop the first `n` characters. -/
def goDropChars (s : String) (n : Nat) : String :=
  String.mk (s.toList.drop n)

/-- A non-empty all-decimal-digit string read as a natural number
(the digits part of `strconv.ParseInt`, base 10). -/
def digitsToNat? (cs : List Char) : Option Nat :=
  if cs.isEmpty then none
  else if cs.all (fun c => c.isDigit) then
    some (cs.foldl (fun n c => n * 10 + (c.toNat - 48)) 0)
  else none

/-- `strconv.ParseInt(s, 10, 64)`: optional sign, one or more decimal
digits, value within the int64 range. -/
def parseInt64? (s : String) : Option Int :=
  let p : Int × List Char :=
    match s.toList with
    | '+' :: r => (1, r)
    | '-' :: r => (-1, r)
    | r => (1, r)
  match digitsToNat? p.2 with
  | none => none
  | some n =>
    let v : Int := p.1 * n
    if -(2 ^ 63) ≤ v ∧ v < 2 ^ 63 then some v else none

/-- The loop body of `parseCacheControl`: scan the comma-separated
directives; on the first one that, after trimming, starts with
`max-age=` and whose value parses as an int64, return that value. -/
def findMaxAge : List String → Option Int
  | [] => none
  | part :: rest =>
    if goStartsWith (goTrimSpace part) "max-age=" then
      match parseInt64? (goDropChars (goTrimSpace part) 8) with
      | some age => some age
      | none => findMaxAge rest
    else findMaxAge rest

/-- `parseCacheControl` (manager.go): extract max-age from a
Cache-Control header value.  `none` models the `(0, false)` return. -/
def parseCacheControl (cacheControl : String) : Option Int :=
  findMaxAge (goSplit cacheControl ',')

/-! ## The feed fetcher (manager.go, `RefreshFeed`) -/

/-- One parsed entry of a feed document, as produced by the external
`gofeed` parser collaborator.  `mediaDescription` is the value found at
`Extensions["media"]["group"][0].Children["description"][0].Value`
when that path exists (the YouTube dialect fallback). -/
structure ParsedItem where
  guid : String
  title : String
  description : String
  content : String
  link : String
  published : Option Int
  mediaDescription : Option String
deriving Repr, DecidableEq

/-- A parsed feed document. -/
structure ParsedFeed where
  title : String
  description : String
  items : List ParsedItem
deriving Repr, DecidableEq

/-- The outcome of the HTTP GET issued by `RefreshFeed`: either a
transport error from `client.Do`, or a response with its status code,
the three cache headers (empty string = header absent), and the result
the body would produce under `parser.Parse`. -/
inductive FetchResult where
  | transportError (msg : String)
  | response (status : Nat) (etagHeader lastModifiedHeader cacheControlHeader : String)
      (parsed : Except String ParsedFeed)
deriving Repr, DecidableEq

/-- What one call of `RefreshFeed` produces: the store afterwards, the
returned Go error (`.ok ()` = nil), and whether an HTTP request was
issued. -/
structure RefreshOutcome where
  db : DB
  result : Except String Unit
  httpPerformed : Bool
deriving Repr, DecidableEq

/-- Go's `http.StatusText` for the status codes of net/http;
unknown codes give the empty string. -/
def statusText : Nat → String
  | 100 => "Continue"
  | 101 => "Switching Protocols"
  | 102 => "Processing"
  | 103 => "Early Hints"
  | 200 => "OK"
  | 201 => "Created"
  | 202 => "Accepted"
  | 203 => "Non-Authoritative Information"
  | 204 => "No Content"
  | 205 => "Reset Content"
  | 206 => "Partial Content"
  | 207 => "Multi-Status"
  | 208 => "Already Reported"
  | 226 => "IM Used"
  | 300 => "Multiple Choices"
  | 301 => "Moved Permanently"
  | 302 => "Found"
  | 303 => "See Other"
  | 304 => "Not Modified"
  | 305 => "Use Proxy"
  | 307 => "Temporary Redirect"
  | 308 => "Permanent Redirect"
  | 400 => "Bad Request"
  | 401 => "Unauthorized"
  | 402 => "Payment Required"
  | 403 => "Forbidden"
  | 404 => "Not Found"
  | 405 => "Method Not Allowed"
  | 406 => "Not Acceptable"
  | 407 => "Proxy Authentication Required"
  | 408 => "Request Timeout"
  | 409 => "Conflict"
  | 410 => "Gone"
  | 411 => "Length Required"
  | 412 => "Precondition Failed"
  | 413 => "Request Entity Too Large"
  | 414 => "Request URI Too Long"
  | 415 => "Unsupported Media Type"
  | 416 => "Requested Range Not Satisfiable"
  | 417 => "Expectation Failed"
  | 418 => "I\x27m a teapot"
  | 421 => "Misdirected Request"
  | 422 => "Unprocessable Entity"
  | 423 => "Locked"
  | 424 => "Failed Dependency"
  | 425 => "Too Early"
  | 426 => "Upgrade Required"
  | 428 => "Precondition Required"
  | 429 => "Too Many Requests"
  | 431 => "Request Header Fields Too Large"
  | 451 => "Unavailable For Legal Reasons"
  | 500 => "Internal Server Error"
  | 501 => "Not Implemented"
  | 502 => "Bad Gateway"
  | 503 => "Service Unavailable"
  | 504 => "Gateway Timeout"
  | 505 => "HTTP Version Not Supported"
  | 506 => "Variant Also Negotiates"
  | 507 => "Insufficient Storage"
  | 508 => "Loop Detected"
  | 510 => "Not Extended"
  | 511 => "Network Authentication Required"
  | _ => ""

/-- The error text `fmt.Errorf("HTTP %d: %s", code, http.StatusText(code))`
built by `RefreshFeed` for non-2xx non-304 responses. -/
def httpStatusErrorMessage (status : Nat) : String :=
  "HTTP " ++ toString status ++ ": " ++ statusText status

/-- `recordFeedError` (manager.go): clear the feed's error fields when
`err == nil`, otherwise record the message and the current time. -/
def recordFeedError (db : DB) (feedID : Int) (err : Option String)
    (now : Int) : DB :=
  match err with
  | none => clearFeedError db feedID
  | some msg => updateFeedError db feedID msg now

/-- The per-item content/description fallback chain inside
`RefreshFeed`'s ingestion loop, producing the `UpsertItem` parameters. -/
def itemParams (feedID : Int) (item : ParsedItem) : UpsertItemParams :=
  let content :=
    if item.content = "" ∧ item.description ≠ "" then item.description
    else item.content
  let description := item.description
  let cd :=
    if content = "" ∧ description = "" then
      match item.mediaDescription with
      | some d => (d, d)
      | none => (content, description)
    else (content, description)
  { feedId := feedID, guid := item.guid, title := item.title,
    description := cd.2, content := cd.1, link := item.link,
    published := item.published }

/-- `RefreshFeed`'s ingestion loop over the parsed items.  A failed
`UpsertItem` call (the oracle `upsertFails`, indexed by position) is
only logged: the item is skipped and the loop continues. -/
def ingestItems (db : DB) (feedID : Int) (items : List ParsedItem)
    (upsertFails : Nat → Bool) : DB :=
  items.enum.foldl
    (fun acc ia =>
      if upsertFails ia.1 then acc
      else upsertItem acc (itemParams feedID ia.2))
    db

/-- The body of `RefreshFeed` after the cache-control short-circuit:
handle the fetch result (manager.go lines 818-956). -/
def refreshFeedFetch (db : DB) (feed : Feed) (feedID : Int) (now : Int)
    (fetch : FetchResult) (upsertFails : Nat → Bool) : RefreshOutcome :=
  match fetch with
  | .transportError msg =>
    ⟨recordFeedError db feedID (some msg) now, .error msg, true⟩
  | .response status etagH lastModH cacheControlH parsed =>
    if status == 304 then
      let db := recordFeedError db feedID none now
      let db := updateFeed db feedID feed.title feed.description (some now)
        feed.etag feed.lastModified feed.cacheControlMaxAge
      ⟨db, .ok (), true⟩
    else if status < 200 ∨ 300 ≤ status then
      let msg := httpStatusErrorMessage status
      ⟨recordFeedError db feedID (some msg) now, .error msg, true⟩
    else
      let etag := if etagH ≠ "" then some etagH else none
      let lastModified := if lastModH ≠ "" then some lastModH else none
      let cacheControlMaxAge :=
        if cacheControlH ≠ "" then parseCacheControl cacheControlH else none
      match parsed with
      | .error msg =>
        ⟨recordFeedError db feedID (some msg) now, .error msg, true⟩
      | .ok parsedFeed =>
        let db := recordFeedError db feedID none now
        let db := updateFeed db feedID parsedFeed.title parsedFeed.description
          (some now) etag lastModified cacheControlMaxAge
        let db := ingestItems db feedID parsedFeed.items upsertFails
        ⟨db, .ok (), true⟩

/-- `RefreshFeed` (manager.go lines 794-957): load the feed, honor the
cache-control short-circuit, otherwise fetch and process.  The HTTP
transport and body parser are supplied as the `fetch` argument; `now`
is the clock. -/
def refreshFeed (db : DB) (feedID : Int) (now : Int) (fetch : FetchResult)
    (upsertFails : Nat → Bool) : RefreshOutcome :=
  match getFeed db feedID with
  | none => ⟨db, .error "feed not found", false⟩
  | some feed =>
    match feed.cacheControlMaxAge, feed.lastUpdated with
    | some maxAge, some lastUpdated =>
      if now < lastUpdated + maxAge then ⟨db, .ok (), false⟩
      else refreshFeedFetch db feed feedID now fetch upsertFails
    | some _, none => refreshFeedFetch db feed feedID now fetch upsertFails
    | none, _ => refreshFeedFetch db feed feedID now fetch upsertFails

/-! ## The task scheduler (internal/tasks, `DefaultManager`) -/

/-- `TaskStatus` (types.go). -/
inductive TaskStatus where
  | pending
  | running
  | completed
  | failed
deriving Repr, DecidableEq

/-- The terminal statuses. -/
def TaskStatus.isTerminal : TaskStatus → Bool
  | .completed => true
  | .failed => true
  | _ => false

/-- The buffered capacity of `taskQueue` (`make(chan *Task, 100)`). -/
def queueCapacity : Nat := 100

/-- The scheduler's shared state: the task table (`m.tasks`, an
association list id ↦ status with task ids modelled as the naturals a
fresh UUID generator hands out in order), the buffered task queue, one
slot per worker (`some tid` = that worker is executing task `tid`), and
the ghost counter backing fresh id generation. -/
structure SchedState where
  numWorkers : Nat
  tasks : List (Nat × TaskStatus)
  queue : List Nat
  workers : List (Option Nat)
  nextId : Nat
deriving Repr, DecidableEq

/-- A freshly started scheduler (`NewManager` + `Start`): `n` idle
workers, empty task table and queue. -/
def initSched (n : Nat) : SchedState :=
  { numWorkers := n, tasks := [], queue := [], workers := List.replicate n none,
    nextId := 0 }

/-- The status of a task as read from the task table (`m.tasks`). -/
def taskStatus (s : SchedState) (tid : Nat) : Option TaskStatus :=
  s.tasks.lookup tid

/-- The ids currently being executed by some worker. -/
def busyIds (s : SchedState) : List Nat :=
  s.workers.filterMap id

/-- The number of tasks whose status is `Running` in the task table. -/
def runningCount (s : SchedState) : Nat :=
  (s.tasks.filter (fun p => p.2 == TaskStatus.running)).length

/-- `AddTask` (updater.go lines 682-701): assign a fresh id, store the
task as `Pending`, then attempt the non-blocking enqueue; a full queue
is an immediate error but the task stays recorded. -/
def addTask (s : SchedState) : SchedState × Except String Nat :=
  let tid := s.nextId
  let s' := { s with tasks := s.tasks ++ [(tid, TaskStatus.pending)],
                     nextId := s.nextId + 1 }
  if s'.queue.length < queueCapacity then
    ({ s' with queue := s'.queue ++ [tid] }, .ok tid)
  else
    (s', .error "task queue is full")

/-- `GetTask` (updater.go lines 704-713), reduced to the status of the
returned task. -/
def getTask (s : SchedState) (tid : Nat) : Except String TaskStatus :=
  match s.tasks.lookup tid with
  | some st => .ok st
  | none => .error "task not found"

/-- `RemoveTask`: delete a task unless it is `Running`. -/
def removeTask (s : SchedState) (tid : Nat) : SchedState × Except String Unit :=
  match s.tasks.lookup tid with
  | none => (s, .error "task not found")
  | some st =>
    if st = TaskStatus.running then (s, .error "cannot remove running task")
    else ({ s with tasks := s.tasks.filter (fun p => !(p.1 == tid)) }, .ok ())

/-- `ClearFailedTasks`: delete every `Failed` task. -/
def clearFailedTasks (s : SchedState) : SchedState :=
  { s with tasks := s.tasks.filter (fun p => !(p.2 == TaskStatus.failed)) }

/-- Write a status into the task table (the worker's
`task.Status = ...` under the scheduler lock); a task no longer in the
table is mutated unobservably. -/
def setTaskStatus (tasks : List (Nat × TaskStatus)) (tid : Nat)
    (st : TaskStatus) : List (Nat × TaskStatus) :=
  tasks.map (fun p => if p.1 == tid then (p.1, st) else p)

/-- One observable transition of the scheduler.  `add` is `AddTask`;
`pick` is a worker receiving the queue head and entering `executeTask`
(status set to `Running`); `finish` is `completeTask` /
`completeTaskWithError` (also covering the missing-handler failure);
`remove` and `clearFailed` are the deletion entry points. -/
inductive SchedStep : SchedState → SchedState → Prop where
  | add (s : SchedState) : SchedStep s (addTask s).1
  | pick (s : SchedState) (i tid : Nat) (rest : List Nat)
      (hq : s.queue = tid :: rest)
      (hw : s.workers.get? i = some none) :
      SchedStep s { s with queue := rest,
                           workers := s.workers.set i (some tid),
                           tasks := setTaskStatus s.tasks tid TaskStatus.running }
  | finish (s : SchedState) (i tid : Nat) (st : TaskStatus)
      (hw : s.workers.get? i = some (some tid))
      (hst : st = TaskStatus.completed ∨ st = TaskStatus.failed) :
      SchedStep s { s with workers := s.workers.set i none,
                           tasks := setTaskStatus s.tasks tid st }
  | remove (s : SchedState) (tid : Nat) : SchedStep s (removeTask s tid).1
  | clearFailed (s : SchedState) : SchedStep s (clearFailedTasks s)

/-- Reachability of scheduler states. -/
def SchedReaches (s s' : SchedState) : Prop :=
  Relation.ReflTransGen SchedStep s s'

/-! ## Store lemmas -/

/-- The cache-control freshness test at the top of `RefreshFeed`
(manager.go lines 806-816), as a Boolean. -/
def cacheFresh (feed : Feed) (now : Int) : Bool :=
  match feed.cacheControlMaxAge, feed.lastUpdated with
  | some maxAge, some lastUpdated => decide (now < lastUpdated + maxAge)
  | _, _ => false

theorem refreshFeed_of_fresh {db : DB} {feedID : Int} {feed : Feed} {now : Int}
    (fetch : FetchResult) (uf : Nat → Bool)
    (hf : getFeed db feedID = some feed) (hfresh : cacheFresh feed now = true) :
    refreshFeed db feedID now fetch uf = ⟨db, .ok (), false⟩ := by
  unfold refreshFeed
  rw [hf]
  unfold cacheFresh at hfresh
  rcases hma : feed.cacheControlMaxAge with _ | maxAge <;>
    rcases hlu : feed.lastUpdated with _ | lastUpdated <;>
      simp [hma, hlu] at hfresh ⊢
  exact fun h => absurd hfresh (by omega)

theorem refreshFeed_of_stale {db : DB} {feedID : Int} {feed : Feed} {now : Int}
    (fetch : FetchResult) (uf : Nat → Bool)
    (hf : getFeed db feedID = some feed) (hstale : cacheFresh feed now = false) :
    refreshFeed db feedID now fetch uf =
      refreshFeedFetch db feed feedID now fetch uf := by
  unfold refreshFeed
  rw [hf]
  unfold cacheFresh at hstale
  rcases hma : feed.cacheControlMaxAge with _ | maxAge <;>
    rcases hlu : feed.lastUpdated with _ | lastUpdated <;>
      simp [hma, hlu] at hstale ⊢
  exact fun h => absurd h (by omega)

theorem find?_map_update (feeds : List Feed) (fid : Int) (g : Feed → Feed)
    (hg : ∀ f, (g f).id = f.id) :
    (feeds.map (fun f => if f.id == fid then g f else f)).find?
        (fun f => f.id == fid)
      = (feeds.find? (fun f => f.id == fid)).map g := by
  induction feeds with
  | nil => rfl
  | cons f fs ih =>
    simp only [List.map_cons]
    by_cases h : f.id = fid
    · have hb : (f.id == fid) = true := beq_iff_eq.mpr h
      have hgb : ((g f).id == fid) = true := by rw [hg]; exact hb
      rw [if_pos hb]
      simp only [List.find?, hgb, hb]
      rfl
    · have hb : (f.id == fid) = false := by simpa using h
      rw [if_neg (by simp [hb])]
      simp only [List.find?, hb, ih]

theorem getFeed_clearFeedError (db : DB) (fid : Int) :
    getFeed (clearFeedError db fid) fid
      = (getFeed db fid).map
          (fun f => { f with lastError := none, lastErrorTime := none }) := by
  unfold getFeed clearFeedError
  exact find?_map_update _ _ _ (fun _ => rfl)

theorem getFeed_updateFeedError (db : DB) (fid : Int) (msg : String) (t : Int) :
    getFeed (updateFeedError db fid msg t) fid
      = (getFeed db fid).map
          (fun f => { f with lastError := some msg, lastErrorTime := some t }) := by
  unfold getFeed updateFeedError
  exact find?_map_update _ _ _ (fun _ => rfl)

theorem getFeed_updateFeed (db : DB) (fid : Int) (title description : String)
    (lastUpdated : Option Int) (etag lastModified : Option String)
    (maxAge : Option Int) :
    getFeed (updateFeed db fid title description lastUpdated etag lastModified maxAge) fid
      = (getFeed db fid).map
          (fun f => { f with title := title, description := description,
                             lastUpdated := lastUpdated, etag := etag,
                             lastModified := lastModified,
                             cacheControlMaxAge := maxAge }) := by
  unfold getFeed updateFeed
  exact find?_map_update _ _ _ (fun _ => rfl)

theorem items_clearFeedError (db : DB) (fid : Int) :
    (clearFeedError db fid).items = db.items := rfl

theorem items_updateFeedError (db : DB) (fid : Int) (msg : String) (t : Int) :
    (updateFeedError db fid msg t).items = db.items := rfl

theorem items_updateFeed (db : DB) (fid : Int) (title description : String)
    (lastUpdated : Option Int) (etag lastModified : Option String)
    (maxAge : Option Int) :
    (updateFeed db fid title description lastUpdated etag lastModified maxAge).items
      = db.items := rfl

/-- The item-ingestion loop expressed on the `items` table and its
autoincrement counter alone. -/
def ingestRows (rows : List Item) (nid : Int) (feedID : Int)
    (ps : List ParsedItem) (uf : Nat → Bool) : List Item × Int :=
  ps.enum.foldl
    (fun acc ia =>
      if uf ia.1 then acc else upsertItemRows acc.1 acc.2 (itemParams feedID ia.2))
    (rows, nid)

theorem ingestItems_spec (db : DB) (fid : Int) (ps : List ParsedItem)
    (uf : Nat → Bool) :
    ingestItems db fid ps uf
      = { db with items := (ingestRows db.items db.nextItemId fid ps uf).1,
                  nextItemId := (ingestRows db.items db.nextItemId fid ps uf).2 } := by
  unfold ingestItems ingestRows
  generalize ps.enum = l
  induction l generalizing db with
  | nil => rfl
  | cons ia l ih =>
    simp only [List.foldl_cons]
    by_cases h : uf ia.1
    · simp only [h, if_true]
      exact ih db
    · simp only [h, if_false]
      rw [ih]
      rfl

theorem feeds_ingestItems (db : DB) (fid : Int) (ps : List ParsedItem)
    (uf : Nat → Bool) : (ingestItems db fid ps uf).feeds = db.feeds := by
  rw [ingestItems_spec]

theorem foldl_skip_eq_foldl_filter {α β : Type} (l : List α) (c : α → Bool)
    (g : β → α → β) (init : β) :
    l.foldl (fun acc x => if c x then acc else g acc x) init
      = (l.filter (fun x => !(c x))).foldl g init := by
  induction l generalizing init with
  | nil => rfl
  | cons x l ih =>
    by_cases h : c x
    · simp [List.filter_cons, h, ih]
    · simp [List.filter_cons, h, ih]

/-- The ingestion loop processes exactly the items whose `UpsertItem`
call does not fail, in document order: a failing upsert is skipped and
the loop continues. -/
theorem ingestRows_eq_filter (rows : List Item) (nid : Int) (fid : Int)
    (ps : List ParsedItem) (uf : Nat → Bool) :
    ingestRows rows nid fid ps uf
      = (ps.enum.filter (fun ia => !(uf ia.1))).foldl
          (fun acc ia => upsertItemRows acc.1 acc.2 (itemParams fid ia.2))
          (rows, nid) := by
  unfold ingestRows
  exact foldl_skip_eq_foldl_filter _ _ _ _

/-! ### Branch lemmas for `refreshFeedFetch` -/

theorem refreshFeedFetch_304 (db : DB) (feed : Feed) (feedID : Int) (now : Int)
    (e l c : String) (parsed : Except String ParsedFeed) (uf : Nat → Bool) :
    refreshFeedFetch db feed feedID now (.response 304 e l c parsed) uf
      = ⟨updateFeed (clearFeedError db feedID) feedID feed.title feed.description
            (some now) feed.etag feed.lastModified feed.cacheControlMaxAge,
          .ok (), true⟩ := by
  unfold refreshFeedFetch
  simp [recordFeedError]

theorem refreshFeedFetch_statusError (db : DB) (feed : Feed) (feedID : Int)
    (now : Int) (status : Nat) (e l c : String)
    (parsed : Except String ParsedFeed) (uf : Nat → Bool)
    (h304 : status ≠ 304) (herr : status < 200 ∨ 300 ≤ status) :
    refreshFeedFetch db feed feedID now (.response status e l c parsed) uf
      = ⟨updateFeedError db feedID (httpStatusErrorMessage status) now,
          .error (httpStatusErrorMessage status), true⟩ := by
  unfold refreshFeedFetch
  have hb : (status == 304) = false := by simpa using h304
  simp [hb, herr, recordFeedError]

theorem refreshFeedFetch_parseError (db : DB) (feed : Feed) (feedID : Int)
    (now : Int) (status : Nat) (e l c msg : String) (uf : Nat → Bool)
    (h2xx : 200 ≤ status ∧ status < 300) :
    refreshFeedFetch db feed feedID now (.response status e l c (.error msg)) uf
      = ⟨updateFeedError db feedID msg now, .error msg, true⟩ := by
  unfold refreshFeedFetch
  have hb : (status == 304) = false := by
    have : status ≠ 304 := by omega
    simpa using this
  have herr : ¬ (status < 200 ∨ 300 ≤ status) := by omega
  simp [hb, herr, recordFeedError]

theorem refreshFeedFetch_200_ok (db : DB) (feed : Feed) (feedID : Int)
    (now : Int) (status : Nat) (e l c : String) (pf : ParsedFeed)
    (uf : Nat → Bool) (h2xx : 200 ≤ status ∧ status < 300) :
    refreshFeedFetch db feed feedID now (.response status e l c (.ok pf)) uf
      = ⟨ingestItems
            (updateFeed (clearFeedError db feedID) feedID pf.title pf.description
              (some now) (if e ≠ "" then some e else none)
              (if l ≠ "" then some l else none)
              (if c ≠ "" then parseCacheControl c else none))
            feedID pf.items uf,
          .ok (), true⟩ := by
  unfold refreshFeedFetch
  have hb : (status == 304) = false := by
    have : status ≠ 304 := by omega
    simpa using this
  have herr : ¬ (status < 200 ∨ 300 ≤ status) := by omega
  simp [hb, herr, recordFeedError]

/-! ## Claim C1: the cache-control short-circuit -/

/-- Claim C1: for a stored feed with `cache_control_max_age` set (and a
recorded `last_updated`), a refresh at a time strictly before
`last_updated + max_age` returns success immediately, performs no HTTP
request, and leaves the whole store — the feed row and the item
table — unchanged. -/
theorem claim_C1_cache_shortcircuit (db : DB) (feedID : Int) (feed : Feed)
    (now maxAge lastUpdated : Int) (fetch : FetchResult) (uf : Nat → Bool)
    (hf : getFeed db feedID = some feed)
    (hma : feed.cacheControlMaxAge = some maxAge)
    (hlu : feed.lastUpdated = some lastUpdated)
    (hnow : now < lastUpdated + maxAge) :
    refreshFeed db feedID now fetch uf = ⟨db, .ok (), false⟩ :=
  refreshFeed_of_fresh fetch uf hf (by
    unfold cacheFresh
    rw [hma, hlu]
    simpa using hnow)

/-- A concrete feed used by the witnesses. -/
def sampleFeed : Feed :=
  { id := 1, url := "http://example.com/feed.xml", title := "Example"
    description := "An example feed", lastUpdated := some 1000
    lastError := some "old failure", lastErrorTime := some 900
    visible := true, etag := some "v1", lastModified := some "Mon"
    cacheControlMaxAge := some 3600 }

/-- A concrete store used by the witnesses. -/
def sampleDB : DB :=
  { feeds := [sampleFeed]
    items := [{ id := 1, feedId := 1, guid := "g1", title := "old title"
                description := "old d", content := "old c", link := "l1"
                published := some 10 }]
    nextItemId := 2 }

theorem claim_C1_witness :
    getFeed sampleDB 1 = some sampleFeed ∧
    sampleFeed.cacheControlMaxAge = some 3600 ∧
    sampleFeed.lastUpdated = some 1000 ∧
    (1000 : Int) + 1800 < 1000 + 3600 ∧
    refreshFeed sampleDB 1 (1000 + 1800)
        (.response 200 "" "" "" (.error "unused")) (fun _ => false)
      = ⟨sampleDB, .ok (), false⟩ :=
  ⟨by decide, by decide, by decide, by decide,
    claim_C1_cache_shortcircuit sampleDB 1 sampleFeed (1000 + 1800) 3600 1000
      (.response 200 "" "" "" (.error "unused")) (fun _ => false)
      (by decide) (by decide) (by decide) (by decide)⟩

/-! ## Claim C2: 304 Not Modified -/

/-- Claim C2: on a `304 Not Modified` response the refresh clears the
recorded error, bumps only `last_updated` (title, description, etag,
last_modified, cache_control_max_age keep their stored values), returns
success, and leaves the item table unchanged. -/
theorem claim_C2_not_modified (db : DB) (feedID : Int) (feed : Feed) (now : Int)
    (e l c : String) (parsed : Except String ParsedFeed) (uf : Nat → Bool)
    (hf : getFeed db feedID = some feed) (hstale : cacheFresh feed now = false) :
    (refreshFeed db feedID now (.response 304 e l c parsed) uf).result = .ok () ∧
    (refreshFeed db feedID now (.response 304 e l c parsed) uf).httpPerformed = true ∧
    (refreshFeed db feedID now (.response 304 e l c parsed) uf).db.items = db.items ∧
    getFeed (refreshFeed db feedID now (.response 304 e l c parsed) uf).db feedID
      = some { feed with lastError := none, lastErrorTime := none,
                         lastUpdated := some now } := by
  rw [refreshFeed_of_stale _ _ hf hstale, refreshFeedFetch_304]
  refine ⟨rfl, rfl, rfl, ?_⟩
  rw [getFeed_updateFeed, getFeed_clearFeedError, hf]
  rfl

theorem claim_C2_witness :
    getFeed sampleDB 1 = some sampleFeed ∧
    cacheFresh sampleFeed 10000 = false ∧
    ((refreshFeed sampleDB 1 10000 (.response 304 "" "" "" (.error "unused"))
        (fun _ => false)).result = .ok () ∧
      (refreshFeed sampleDB 1 10000 (.response 304 "" "" "" (.error "unused"))
        (fun _ => false)).httpPerformed = true ∧
      (refreshFeed sampleDB 1 10000 (.response 304 "" "" "" (.error "unused"))
        (fun _ => false)).db.items = sampleDB.items ∧
      getFeed (refreshFeed sampleDB 1 10000 (.response 304 "" "" "" (.error "unused"))
          (fun _ => false)).db 1
        = some { sampleFeed with lastError := none, lastErrorTime := none,
                                 lastUpdated := some 10000 }) :=
  ⟨by decide, by decide,
    claim_C2_not_modified sampleDB 1 sampleFeed 10000 "" "" "" (.error "unused")
      (fun _ => false) (by decide) (by decide)⟩

/-! ## Claim C3: parse failure commits nothing -/

/-- Claim C3: a 2xx response whose body fails to parse records the
error on the feed and returns failure; the response's header fields are
not committed (etag, last_modified, cache_control_max_age, title,
description keep their stored values) and no items are upserted. -/
theorem claim_C3_parse_failure (db : DB) (feedID : Int) (feed : Feed) (now : Int)
    (status : Nat) (e l c msg : String) (uf : Nat → Bool)
    (hf : getFeed db feedID = some feed) (hstale : cacheFresh feed now = false)
    (h2xx : 200 ≤ status ∧ status < 300) :
    (refreshFeed db feedID now (.response status e l c (.error msg)) uf).result
      = .error msg ∧
    (refreshFeed db feedID now (.response status e l c (.error msg)) uf).httpPerformed
      = true ∧
    (refreshFeed db feedID now (.response status e l c (.error msg)) uf).db.items
      = db.items ∧
    getFeed (refreshFeed db feedID now (.response status e l c (.error msg)) uf).db
        feedID
      = some { feed with lastError := some msg, lastErrorTime := some now } := by
  rw [refreshFeed_of_stale _ _ hf hstale, refreshFeedFetch_parseError _ _ _ _ _ _ _ _ _ _ h2xx]
  refine ⟨rfl, rfl, rfl, ?_⟩
  rw [getFeed_updateFeedError, hf]
  rfl

theorem claim_C3_witness :
    getFeed sampleDB 1 = some sampleFeed ∧
    cacheFresh sampleFeed 10000 = false ∧
    (200 ≤ 200 ∧ 200 < 300) ∧
    ((refreshFeed sampleDB 1 10000 (.response 200 "v2" "Tue" "max-age=60"
        (.error "XML syntax error")) (fun _ => false)).result
      = .error "XML syntax error" ∧
      (refreshFeed sampleDB 1 10000 (.response 200 "v2" "Tue" "max-age=60"
        (.error "XML syntax error")) (fun _ => false)).httpPerformed = true ∧
      (refreshFeed sampleDB 1 10000 (.response 200 "v2" "Tue" "max-age=60"
        (.error "XML syntax error")) (fun _ => false)).db.items = sampleDB.items ∧
      getFeed (refreshFeed sampleDB 1 10000 (.response 200 "v2" "Tue" "max-age=60"
          (.error "XML syntax error")) (fun _ => false)).db 1
        = some { sampleFeed with lastError := some "XML syntax error",
                                 lastErrorTime := some 10000 }) :=
  ⟨by decide, by decide, by decide,
    claim_C3_parse_failure sampleDB 1 sampleFeed 10000 200 "v2" "Tue" "max-age=60"
      "XML syntax error" (fun _ => false) (by decide) (by decide) (by decide)⟩

/-! ## Claim C7: HTTP status errors -/

/-- Claim C7: a response that is neither 2xx nor 304 sets `last_error`
to a message containing the numeric status code and its status text,
sets `last_error_time`, returns failure, and leaves title, description,
etag, last_modified and cache_control_max_age untouched (and the item
table unchanged). -/
theorem claim_C7_http_status_error (db : DB) (feedID : Int) (feed : Feed)
    (now : Int) (status : Nat) (e l c : String)
    (parsed : Except String ParsedFeed) (uf : Nat → Bool)
    (hf : getFeed db feedID = some feed) (hstale : cacheFresh feed now = false)
    (h304 : status ≠ 304) (herr : status < 200 ∨ 300 ≤ status) :
    (refreshFeed db feedID now (.response status e l c parsed) uf).result
      = .error (httpStatusErrorMessage status) ∧
    (refreshFeed db feedID now (.response status e l c parsed) uf).httpPerformed
      = true ∧
    (refreshFeed db feedID now (.response status e l c parsed) uf).db.items
      = db.items ∧
    getFeed (refreshFeed db feedID now (.response status e l c parsed) uf).db feedID
      = some { feed with lastError := some (httpStatusErrorMessage status),
                         lastErrorTime := some now } ∧
    (∃ pre post, httpStatusErrorMessage status = pre ++ toString status ++ post) ∧
    (∃ pre, httpStatusErrorMessage status = pre ++ statusText status) := by
  rw [refreshFeed_of_stale _ _ hf hstale,
    refreshFeedFetch_statusError _ _ _ _ _ _ _ _ _ _ h304 herr]
  refine ⟨rfl, rfl, rfl, ?_, ?_, ?_⟩
  · rw [getFeed_updateFeedError, hf]
    rfl
  · exact ⟨"HTTP ", ": " ++ statusText status, by
      simp [httpStatusErrorMessage, String.append_assoc]⟩
  · exact ⟨"HTTP " ++ toString status ++ ": ", rfl⟩

theorem claim_C7_witness :
    getFeed sampleDB 1 = some sampleFeed ∧
    cacheFresh sampleFeed 10000 = false ∧
    (500 : Nat) ≠ 304 ∧
    ((500 : Nat) < 200 ∨ 300 ≤ (500 : Nat)) ∧
    statusText 500 = "Internal Server Error" ∧
    httpStatusErrorMessage 500 = "HTTP 500: Internal Server Error" ∧
    ((refreshFeed sampleDB 1 10000 (.response 500 "" "" "" (.error "unused"))
        (fun _ => false)).result = .error (httpStatusErrorMessage 500) ∧
      (refreshFeed sampleDB 1 10000 (.response 500 "" "" "" (.error "unused"))
        (fun _ => false)).httpPerformed = true ∧
      (refreshFeed sampleDB 1 10000 (.response 500 "" "" "" (.error "unused"))
        (fun _ => false)).db.items = sampleDB.items ∧
      getFeed (refreshFeed sampleDB 1 10000 (.response 500 "" "" "" (.error "unused"))
          (fun _ => false)).db 1
        = some { sampleFeed with
                   lastError := some (httpStatusErrorMessage 500),
                   lastErrorTime := some 10000 } ∧
      (∃ pre post, httpStatusErrorMessage 500 = pre ++ toString 500 ++ post) ∧
      (∃ pre, httpStatusErrorMessage 500 = pre ++ statusText 500)) :=
  ⟨by decide, by decide, by decide, by decide, by decide, by decide,
    claim_C7_http_status_error sampleDB 1 sampleFeed 10000 500 "" "" ""
      (.error "unused") (fun _ => false) (by decide) (by decide) (by decide)
      (by decide)⟩

/-! ## Claim C9: Cache-Control max-age parsing -/

theorem getFeed_ingestItems (db : DB) (fid fid' : Int) (ps : List ParsedItem)
    (uf : Nat → Bool) :
    getFeed (ingestItems db fid ps uf) fid' = getFeed db fid' := by
  unfold getFeed
  rw [feeds_ingestItems]

theorem findMaxAge_of_no_prefix (l : List String)
    (h : ∀ p ∈ l, goStartsWith (goTrimSpace p) "max-age=" = false) :
    findMaxAge l = none := by
  induction l with
  | nil => rfl
  | cons p rest ih =>
    have hp := h p (List.mem_cons_self p rest)
    simp only [findMaxAge, hp, Bool.false_eq_true, if_false]
    exact ih (fun q hq => h q (List.mem_cons_of_mem p hq))

theorem findMaxAge_first (l₁ l₂ : List String) (p : String) (n : Int)
    (h₁ : ∀ q ∈ l₁, goStartsWith (goTrimSpace q) "max-age=" = false)
    (hp : goStartsWith (goTrimSpace p) "max-age=" = true)
    (hn : parseInt64? (goDropChars (goTrimSpace p) 8) = some n) :
    findMaxAge (l₁ ++ p :: l₂) = some n := by
  induction l₁ with
  | nil =>
    rw [List.nil_append]
    simp only [findMaxAge, hp, if_true, hn]
  | cons q rest ih =>
    rw [List.cons_append]
    have hq := h₁ q (List.mem_cons_self q rest)
    simp only [findMaxAge, hq, Bool.false_eq_true, if_false]
    exact ih (fun r hr => h₁ r (List.mem_cons_of_mem q hr))

/-- Claim C9: `parseCacheControl` returns the value of the first
`max-age=N` directive among the comma-separated directives, ignoring
every other directive; when no `max-age` directive is present it
reports absence, and the 200-OK path then leaves the feed's
`cache_control_max_age` unset. -/
theorem claim_C9_cache_control_parsing :
    (∀ cc : String,
        (∀ p ∈ goSplit cc ',', goStartsWith (goTrimSpace p) "max-age=" = false) →
        parseCacheControl cc = none) ∧
    (∀ (cc : String) (l₁ l₂ : List String) (p : String) (n : Int),
        goSplit cc ',' = l₁ ++ p :: l₂ →
        (∀ q ∈ l₁, goStartsWith (goTrimSpace q) "max-age=" = false) →
        goStartsWith (goTrimSpace p) "max-age=" = true →
        parseInt64? (goDropChars (goTrimSpace p) 8) = some n →
        parseCacheControl cc = some n) ∧
    (∀ (db : DB) (feedID : Int) (feed : Feed) (now : Int) (status : Nat)
        (e l c : String) (pf : ParsedFeed) (uf : Nat → Bool),
        getFeed db feedID = some feed → cacheFresh feed now = false →
        200 ≤ status ∧ status < 300 → parseCacheControl c = none →
        ∃ f', getFeed (refreshFeed db feedID now
                (.response status e l c (.ok pf)) uf).db feedID = some f' ∧
          f'.cacheControlMaxAge = none) := by
  refine ⟨?_, ?_, ?_⟩
  · intro cc h
    exact findMaxAge_of_no_prefix _ h
  · intro cc l₁ l₂ p n hsplit h₁ hp hn
    unfold parseCacheControl
    rw [hsplit]
    exact findMaxAge_first l₁ l₂ p n h₁ hp hn
  · intro db feedID feed now status e l c pf uf hf hstale h2xx hnone
    rw [refreshFeed_of_stale _ _ hf hstale,
      refreshFeedFetch_200_ok _ _ _ _ _ _ _ _ _ _ h2xx]
    refine ⟨{ feed with title := pf.title, description := pf.description,
                        lastUpdated := some now,
                        etag := (if e ≠ "" then some e else none),
                        lastModified := (if l ≠ "" then some l else none),
                        cacheControlMaxAge :=
                          (if c ≠ "" then parseCacheControl c else none),
                        lastError := none, lastErrorTime := none }, ?_, ?_⟩
    · show getFeed (ingestItems _ _ _ _) feedID = _
      rw [getFeed_ingestItems, getFeed_updateFeed, getFeed_clearFeedError, hf]
      rfl
    · show (if c ≠ "" then parseCacheControl c else none) = none
      by_cases hc : c = "" <;> simp [hc, hnone]

theorem claim_C9_witness :
    (∀ p ∈ goSplit "public, no-store" ',',
        goStartsWith (goTrimSpace p) "max-age=" = false) ∧
    parseCacheControl "public, no-store" = none ∧
    (goSplit "no-cache, max-age=3600, stale-if-error=60" ','
      = ["no-cache"] ++ " max-age=3600" :: [" stale-if-error=60"]) ∧
    parseInt64? (goDropChars (goTrimSpace " max-age=3600") 8) = some 3600 ∧
    parseCacheControl "no-cache, max-age=3600, stale-if-error=60" = some 3600 :=
  ⟨by decide, claim_C9_cache_control_parsing.1 "public, no-store" (by decide),
    by decide, by decide,
    claim_C9_cache_control_parsing.2.1 "no-cache, max-age=3600, stale-if-error=60"
      ["no-cache"] [" stale-if-error=60"] " max-age=3600" 3600 (by decide)
      (by decide) (by decide) (by decide)⟩

/-! ## Claim C10: item-upsert failures are not fatal -/

/-- Claim C10: on a 2xx response that parses successfully, the refresh
returns success even when individual item upserts fail; a failing
upsert is skipped without aborting the remaining items, the feed's
error fields stay clear, and the header/title fields are committed. -/
theorem claim_C10_upsert_failures_nonfatal (db : DB) (feedID : Int)
    (feed : Feed) (now : Int) (status : Nat) (e l c : String) (pf : ParsedFeed)
    (uf : Nat → Bool)
    (hf : getFeed db feedID = some feed) (hstale : cacheFresh feed now = false)
    (h2xx : 200 ≤ status ∧ status < 300) :
    (refreshFeed db feedID now (.response status e l c (.ok pf)) uf).result
      = .ok () ∧
    (refreshFeed db feedID now (.response status e l c (.ok pf)) uf).httpPerformed
      = true ∧
    getFeed (refreshFeed db feedID now (.response status e l c (.ok pf)) uf).db
        feedID
      = some { feed with title := pf.title, description := pf.description,
                         lastUpdated := some now,
                         etag := (if e ≠ "" then some e else none),
                         lastModified := (if l ≠ "" then some l else none),
                         cacheControlMaxAge :=
                           (if c ≠ "" then parseCacheControl c else none),
                         lastError := none, lastErrorTime := none } ∧
    (refreshFeed db feedID now (.response status e l c (.ok pf)) uf).db.items
      = ((pf.items.enum.filter (fun ia => !(uf ia.1))).foldl
          (fun acc ia => upsertItemRows acc.1 acc.2 (itemParams feedID ia.2))
          (db.items, db.nextItemId)).1 := by
  rw [refreshFeed_of_stale _ _ hf hstale,
    refreshFeedFetch_200_ok _ _ _ _ _ _ _ _ _ _ h2xx]
  refine ⟨rfl, rfl, ?_, ?_⟩
  · show getFeed (ingestItems _ _ _ _) feedID = _
    rw [getFeed_ingestItems, getFeed_updateFeed, getFeed_clearFeedError, hf]
    rfl
  · show (ingestItems _ _ _ _).items = _
    rw [ingestItems_spec, ingestRows_eq_filter]
    rfl

/-- A concrete parsed document used by the witnesses. -/
def sampleParsedFeed : ParsedFeed :=
  { title := "Fresh title", description := "Fresh description"
    items := [
      { guid := "g1", title := "t1", description := "d1", content := "c1"
        link := "l1", published := some 20, mediaDescription := none },
      { guid := "g2", title := "t2", description := "d2", content := "c2"
        link := "l2", published := some 30, mediaDescription := none }] }

theorem claim_C10_witness :
    getFeed sampleDB 1 = some sampleFeed ∧
    cacheFresh sampleFeed 10000 = false ∧
    (200 ≤ 200 ∧ 200 < 300) ∧
    ((refreshFeed sampleDB 1 10000
        (.response 200 "v2" "Tue" "max-age=60" (.ok sampleParsedFeed))
        (fun i => i == 0)).result = .ok () ∧
      (refreshFeed sampleDB 1 10000
        (.response 200 "v2" "Tue" "max-age=60" (.ok sampleParsedFeed))
        (fun i => i == 0)).httpPerformed = true ∧
      getFeed (refreshFeed sampleDB 1 10000
          (.response 200 "v2" "Tue" "max-age=60" (.ok sampleParsedFeed))
          (fun i => i == 0)).db 1
        = some { sampleFeed with
                   title := sampleParsedFeed.title,
                   description := sampleParsedFeed.description,
                   lastUpdated := some 10000,
                   etag := (if "v2" ≠ "" then some "v2" else none),
                   lastModified := (if "Tue" ≠ "" then some "Tue" else none),
                   cacheControlMaxAge :=
                     (if "max-age=60" ≠ "" then parseCacheControl "max-age=60"
                      else none),
                   lastError := none, lastErrorTime := none } ∧
      (refreshFeed sampleDB 1 10000
          (.response 200 "v2" "Tue" "max-age=60" (.ok sampleParsedFeed))
          (fun i => i == 0)).db.items
        = ((sampleParsedFeed.items.enum.filter
              (fun ia => !((fun i => i == 0) ia.1))).foldl
            (fun acc ia => upsertItemRows acc.1 acc.2 (itemParams 1 ia.2))
            (sampleDB.items, sampleDB.nextItemId)).1) :=
  ⟨by decide, by decide, by decide,
    claim_C10_upsert_failures_nonfatal sampleDB 1 sampleFeed 10000 200 "v2" "Tue"
      "max-age=60" sampleParsedFeed (fun i => i == 0) (by decide) (by decide)
      (by decide)⟩

/-! ## Scheduler lemmas -/

theorem lookup_eq_none_iff (l : List (Nat × TaskStatus)) (tid : Nat) :
    l.lookup tid = none ↔ tid ∉ l.map Prod.fst := by
  induction l with
  | nil => simp [List.lookup]
  | cons p l ih =>
    rcases p with ⟨k, v⟩
    by_cases h : tid = k
    · simp [List.lookup, h]
    · have hb : (tid == k) = false := by simpa using h
      simp [List.lookup, hb, ih, h]

theorem mem_keys_of_lookup {l : List (Nat × TaskStatus)} {tid : Nat}
    {st : TaskStatus} (h : l.lookup tid = some st) : tid ∈ l.map Prod.fst := by
  by_contra hmem
  rw [← lookup_eq_none_iff] at hmem
  rw [h] at hmem
  exact Option.noConfusion hmem

theorem lookup_eq_of_mem_of_nodup {l : List (Nat × TaskStatus)} {tid : Nat}
    {st : TaskStatus} (hnd : (l.map Prod.fst).Nodup) (h : (tid, st) ∈ l) :
    l.lookup tid = some st := by
  induction l with
  | nil => exact absurd h (List.not_mem_nil _)
  | cons p l ih =>
    rcases p with ⟨k, v⟩
    rcases List.mem_cons.mp h with heq | htl
    · rw [Prod.mk.injEq] at heq
      simp [List.lookup, heq.1.symm, heq.2]
    · by_cases hk : tid = k
      · exfalso
        have : k ∈ l.map Prod.fst := by
          subst hk
          exact List.mem_map.mpr ⟨(tid, st), htl, rfl⟩
        simp only [List.map_cons, List.nodup_cons] at hnd
        exact hnd.1 this
      · have hb : (tid == k) = false := by simpa using hk
        simp only [List.lookup, hb]
        exact ih (by
          simp only [List.map_cons, List.nodup_cons] at hnd
          exact hnd.2) htl

theorem lookup_append (l₁ l₂ : List (Nat × TaskStatus)) (tid : Nat) :
    (l₁ ++ l₂).lookup tid
      = ((l₁.lookup tid).orElse (fun _ => l₂.lookup tid)) := by
  induction l₁ with
  | nil => simp [List.lookup]
  | cons p l ih =>
    rcases p with ⟨k, v⟩
    by_cases h : tid = k
    · simp [List.lookup, h]
    · have hb : (tid == k) = false := by simpa using h
      simp [List.lookup, hb, ih]

theorem keys_setTaskStatus (l : List (Nat × TaskStatus)) (tid : Nat)
    (st : TaskStatus) :
    (setTaskStatus l tid st).map Prod.fst = l.map Prod.fst := by
  unfold setTaskStatus
  rw [List.map_map]
  refine List.map_congr_left (fun p _ => ?_)
  by_cases h : p.1 = tid <;> simp [h]

theorem lookup_setTaskStatus (l : List (Nat × TaskStatus)) (tid tid' : Nat)
    (st : TaskStatus) :
    (setTaskStatus l tid st).lookup tid'
      = if tid' = tid then (l.lookup tid').map (fun _ => st)
        else l.lookup tid' := by
  induction l with
  | nil => by_cases h : tid' = tid <;> simp [setTaskStatus, List.lookup, h]
  | cons p l ih =>
    rcases p with ⟨k, v⟩
    unfold setTaskStatus at ih ⊢
    simp only [List.map_cons]
    by_cases hk : k = tid
    · have hbk : ((k, v).1 == tid) = true := by simpa using hk
      rw [if_pos hbk]
      by_cases h' : tid' = k
      · have htt : tid' = tid := h'.trans hk
        have hb1 : (tid' == k) = true := by simpa using h'
        rw [if_pos htt]
        simp only [List.lookup, hb1]
        rfl
      · have hb1 : (tid' == k) = false := by simpa using h'
        have h2 : ¬ tid' = tid := fun hc => h' (hc.trans hk.symm)
        rw [if_neg h2]
        simp only [List.lookup, hb1]
        rw [ih, if_neg h2]
    · have hbk : ((k, v).1 == tid) = false := by simpa using hk
      rw [if_neg (by simp [hbk])]
      by_cases h' : tid' = k
      · have h2 : ¬ tid' = tid := fun hc => hk (h'.symm.trans hc)
        have hb1 : (tid' == k) = true := by simpa using h'
        rw [if_neg h2]
        simp only [List.lookup, hb1]
      · have hb1 : (tid' == k) = false := by simpa using h'
        simp only [List.lookup, hb1]
        exact ih

theorem lookup_filterKey (l : List (Nat × TaskStatus)) (tid tid' : Nat) :
    (l.filter (fun p => !(p.1 == tid))).lookup tid'
      = if tid' = tid then none else l.lookup tid' := by
  induction l with
  | nil => by_cases h : tid' = tid <;> simp [List.lookup, h]
  | cons p l ih =>
    rcases p with ⟨k, v⟩
    simp only [List.filter_cons]
    by_cases hk : k = tid
    · have hb : (!((k, v).1 == tid)) = false := by simpa using hk
      rw [hb, if_neg (by simp), ih]
      by_cases h' : tid' = tid
      · simp [h']
      · have hbk : (tid' == k) = false := by
          have hne : tid' ≠ k := fun hc => h' (hc.trans hk)
          simpa using hne
        simp [h', List.lookup, hbk]
    · have hb : (!((k, v).1 == tid)) = true := by simpa using hk
      rw [hb, if_pos rfl]
      by_cases h' : tid' = k
      · have hne : tid' ≠ tid := fun hc => hk (h'.symm.trans hc)
        have hbk : (tid' == k) = true := by simpa using h'
        simp [List.lookup, hbk, hne]
      · have hbk : (tid' == k) = false := by simpa using h'
        simp [List.lookup, hbk, ih]

theorem lookup_filter_of_not_mem {l : List (Nat × TaskStatus)} {tid : Nat}
    (f : Nat × TaskStatus → Bool) (h : tid ∉ l.map Prod.fst) :
    (l.filter f).lookup tid = none := by
  rw [lookup_eq_none_iff]
  intro hmem
  obtain ⟨p, hp, rfl⟩ := List.mem_map.mp hmem
  exact h (List.mem_map.mpr ⟨p, List.mem_of_mem_filter hp, rfl⟩)

theorem lookup_filterFailed (l : List (Nat × TaskStatus)) (tid : Nat)
    (hnd : (l.map Prod.fst).Nodup) :
    (l.filter (fun p => !(p.2 == TaskStatus.failed))).lookup tid
      = if l.lookup tid = some TaskStatus.failed then none
        else l.lookup tid := by
  induction l with
  | nil => simp [List.lookup]
  | cons p l ih =>
    rcases p with ⟨k, v⟩
    simp only [List.map_cons, List.nodup_cons] at hnd
    simp only [List.filter_cons]
    by_cases h' : tid = k
    · have hb1 : (tid == k) = true := by simpa using h'
      by_cases hv : v = TaskStatus.failed
      · have hbv : (!((k, v).2 == TaskStatus.failed)) = false := by simpa using hv
        rw [hbv, if_neg (by simp)]
        have hnone : (l.filter (fun p => !(p.2 == TaskStatus.failed))).lookup tid
            = none := lookup_filter_of_not_mem _ (h' ▸ hnd.1)
        rw [hnone]
        simp only [List.lookup, hb1, hv]
        simp
      · have hbv : (!((k, v).2 == TaskStatus.failed)) = true := by simpa using hv
        rw [hbv, if_pos rfl]
        simp only [List.lookup, hb1]
        simp [hv]
    · have hb1 : (tid == k) = false := by simpa using h'
      by_cases hv : v = TaskStatus.failed
      · have hbv : (!((k, v).2 == TaskStatus.failed)) = false := by simpa using hv
        rw [hbv, if_neg (by simp)]
        simp only [List.lookup, hb1]
        exact ih hnd.2
      · have hbv : (!((k, v).2 == TaskStatus.failed)) = true := by simpa using hv
        rw [hbv, if_pos rfl]
        simp only [List.lookup, hb1]
        exact ih hnd.2

theorem mem_set_of_mem_of_ne {l : List (Option Nat)} {a b : Option Nat}
    {i : Nat} (ha : a ∈ l) (hi : l.get? i = some b) (hab : a ≠ b)
    (c : Option Nat) : a ∈ l.set i c := by
  obtain ⟨j, hj, hje⟩ := List.mem_iff_getElem.mp ha
  have hij : i ≠ j := by
    intro he
    subst he
    rw [List.get?_eq_getElem?, List.getElem?_eq_getElem hj, hje] at hi
    exact hab (Option.some_injective _ hi)
  refine List.mem_iff_getElem.mpr ⟨j, ?_, ?_⟩
  · simpa using hj
  · rw [List.getElem_set_ne hij]
    exact hje

theorem filterMap_set_some (ws : List (Option Nat)) (i : Nat) (tid : Nat)
    (h : ws.get? i = some none) :
    ((ws.set i (some tid)).filterMap id).Perm (tid :: ws.filterMap id) := by
  induction ws generalizing i with
  | nil => simp [List.get?] at h
  | cons o ws ih =>
    cases i with
    | zero =>
      simp only [List.get?] at h
      obtain rfl : o = none := Option.some_injective _ h
      simp
    | succ i =>
      simp only [List.get?] at h
      cases o with
      | none =>
        simpa using ih i h
      | some a =>
        simp only [List.set, List.filterMap_cons, id]
        exact ((ih i h).cons a).trans (List.Perm.swap tid a _)

theorem filterMap_set_none (ws : List (Option Nat)) (i : Nat) (tid : Nat)
    (h : ws.get? i = some (some tid)) :
    (tid :: (ws.set i none).filterMap id).Perm (ws.filterMap id) := by
  induction ws generalizing i with
  | nil => simp [List.get?] at h
  | cons o ws ih =>
    cases i with
    | zero =>
      simp only [List.get?] at h
      obtain rfl : o = some tid := Option.some_injective _ h
      simp
    | succ i =>
      simp only [List.get?] at h
      cases o with
      | none =>
        simpa using ih i h
      | some a =>
        simp only [List.set, List.filterMap_cons, id]
        exact (List.Perm.swap a tid _).trans ((ih i h).cons a)

theorem lookup_append_single (l : List (Nat × TaskStatus)) (k : Nat)
    (v : TaskStatus) (tid : Nat) :
    (l ++ [(k, v)]).lookup tid
      = match l.lookup tid with
        | some st => some st
        | none => if tid = k then some v else none := by
  rw [lookup_append]
  cases l.lookup tid with
  | some st => rfl
  | none =>
    by_cases h : tid = k
    · have hb : (tid == k) = true := by simpa using h
      simp [List.lookup, hb, h, Option.orElse]
    · have hb : (tid == k) = false := by simpa using h
      simp [List.lookup, hb, h, Option.orElse]

theorem addTask_fst_ok (s : SchedState) (h : s.queue.length < queueCapacity) :
    (addTask s).1
      = { s with tasks := s.tasks ++ [(s.nextId, TaskStatus.pending)],
                 queue := s.queue ++ [s.nextId], nextId := s.nextId + 1 } := by
  simp [addTask, h]

theorem addTask_fst_full (s : SchedState) (h : ¬ s.queue.length < queueCapacity) :
    (addTask s).1
      = { s with tasks := s.tasks ++ [(s.nextId, TaskStatus.pending)],
                 nextId := s.nextId + 1 } := by
  simp [addTask, h]

theorem removeTask_fst_cases (s : SchedState) (tid : Nat) :
    (removeTask s tid).1 = s ∨
    (removeTask s tid).1
      = { s with tasks := s.tasks.filter (fun p => !(p.1 == tid)) } := by
  unfold removeTask
  cases hl : s.tasks.lookup tid with
  | none => left; rfl
  | some st =>
    by_cases h : st = TaskStatus.running
    · left; simp [h]
    · right; simp [h]

theorem numWorkers_step {s s' : SchedState} (h : SchedStep s s') :
    s'.numWorkers = s.numWorkers := by
  cases h with
  | add =>
    by_cases hq : s.queue.length < queueCapacity
    · rw [addTask_fst_ok s hq]
    · rw [addTask_fst_full s hq]
  | pick i tid rest hq hw => rfl
  | finish i tid st hw hst => rfl
  | remove tid =>
    rcases removeTask_fst_cases s tid with h | h <;> rw [h]
  | clearFailed => rfl

theorem nextId_le_step {s s' : SchedState} (h : SchedStep s s') :
    s.nextId ≤ s'.nextId := by
  cases h with
  | add =>
    by_cases hq : s.queue.length < queueCapacity
    · rw [addTask_fst_ok s hq]; exact Nat.le_succ _
    · rw [addTask_fst_full s hq]; exact Nat.le_succ _
  | pick i tid rest hq hw => exact le_refl _
  | finish i tid st hw hst => exact le_refl _
  | remove tid =>
    rcases removeTask_fst_cases s tid with h | h <;> rw [h]
  | clearFailed => exact le_refl _

theorem nextId_le_reaches {s s' : SchedState} (h : SchedReaches s s') :
    s.nextId ≤ s'.nextId := by
  induction h with
  | refl => exact le_refl _
  | tail hab hbc ih => exact le_trans ih (nextId_le_step hbc)

theorem numWorkers_eq_reaches {s s' : SchedState} (h : SchedReaches s s') :
    s'.numWorkers = s.numWorkers := by
  induction h with
  | refl => rfl
  | tail hab hbc ih => exact (numWorkers_step hbc).trans ih

/-- The inductive invariant of the scheduler: task-table keys are
unique, the queue and the busy workers mention each id at most once,
`Running` tasks are exactly those some worker is executing (up to
removed tasks), queued tasks are `Pending` (or removed), every id ever
issued is below the fresh-id counter, and the worker-slot count is the
construction-time worker count. -/
structure SchedInv (s : SchedState) : Prop where
  keysNodup : (s.tasks.map Prod.fst).Nodup
  qbNodup : (s.queue ++ busyIds s).Nodup
  runBusy : ∀ tid, s.tasks.lookup tid = some TaskStatus.running → tid ∈ busyIds s
  busyRun : ∀ tid, tid ∈ busyIds s →
    s.tasks.lookup tid = some TaskStatus.running ∨ s.tasks.lookup tid = none
  queuePending : ∀ tid, tid ∈ s.queue →
    s.tasks.lookup tid = some TaskStatus.pending ∨ s.tasks.lookup tid = none
  taskLt : ∀ tid, tid ∈ s.tasks.map Prod.fst → tid < s.nextId
  queueLt : ∀ tid, tid ∈ s.queue → tid < s.nextId
  busyLt : ∀ tid, tid ∈ busyIds s → tid < s.nextId
  workersLen : s.workers.length = s.numWorkers

theorem filterMap_id_replicate_none (n : Nat) :
    (List.replicate n (none : Option Nat)).filterMap id = [] := by
  induction n with
  | zero => rfl
  | succ n ih => simp [List.replicate_succ, List.filterMap_cons, ih]

theorem busyIds_initSched (n : Nat) : busyIds (initSched n) = [] :=
  filterMap_id_replicate_none n

theorem schedInv_init (n : Nat) : SchedInv (initSched n) := by
  refine ⟨?_, ?_, ?_, ?_, ?_, ?_, ?_, ?_, ?_⟩ <;>
    simp [initSched, busyIds, filterMap_id_replicate_none, List.lookup]

theorem schedInv_add_aux (s : SchedState) (hinv : SchedInv s) (q' : List Nat)
    (hq' : q' = s.queue ∨ q' = s.queue ++ [s.nextId]) :
    SchedInv { s with tasks := s.tasks ++ [(s.nextId, TaskStatus.pending)],
                      queue := q', nextId := s.nextId + 1 } := by
  have hnt : s.nextId ∉ s.tasks.map Prod.fst :=
    fun hm => absurd (hinv.taskLt _ hm) (lt_irrefl _)
  have hnq : s.nextId ∉ s.queue :=
    fun hm => absurd (hinv.queueLt _ hm) (lt_irrefl _)
  have hnb : s.nextId ∉ busyIds s :=
    fun hm => absurd (hinv.busyLt _ hm) (lt_irrefl _)
  have hlooknone : s.tasks.lookup s.nextId = none :=
    (lookup_eq_none_iff _ _).mpr hnt
  refine ⟨?_, ?_, ?_, ?_, ?_, ?_, ?_, ?_, ?_⟩
  · show ((s.tasks ++ [(s.nextId, TaskStatus.pending)]).map Prod.fst).Nodup
    rw [List.map_append, List.nodup_append]
    refine ⟨hinv.keysNodup, by simp, ?_⟩
    intro a ha hb
    simp only [List.map_cons, List.map_nil, List.mem_singleton] at hb
    exact hnt (hb ▸ ha)
  · show (q' ++ busyIds s).Nodup
    rcases hq' with rfl | rfl
    · exact hinv.qbNodup
    · have hqb := List.nodup_append.mp hinv.qbNodup
      rw [List.nodup_append]
      refine ⟨?_, hqb.2.1, ?_⟩
      · rw [List.nodup_append]
        refine ⟨hqb.1, by simp, ?_⟩
        intro a ha hb
        simp only [List.mem_singleton] at hb
        exact hnq (hb ▸ ha)
      · intro a ha hb
        rcases List.mem_append.mp ha with ha | ha
        · exact hqb.2.2 ha hb
        · simp only [List.mem_singleton] at ha
          exact hnb (ha ▸ hb)
  · intro tid ht
    show tid ∈ busyIds s
    rw [lookup_append_single] at ht
    cases hl : s.tasks.lookup tid with
    | some st =>
      rw [hl] at ht
      obtain rfl : st = TaskStatus.running := by simpa using ht
      exact hinv.runBusy tid hl
    | none =>
      rw [hl] at ht
      by_cases h' : tid = s.nextId <;> simp [h'] at ht
  · intro tid hb
    have hb' : tid ∈ busyIds s := hb
    have hne : tid ≠ s.nextId := fun hc => hnb (hc ▸ hb')
    rw [lookup_append_single]
    rcases hinv.busyRun tid hb' with hl | hl
    · rw [hl]; exact Or.inl rfl
    · rw [hl]
      simp [hne]
  · intro tid hq
    rw [lookup_append_single]
    rcases hq' with rfl | rfl
    · have hne : tid ≠ s.nextId := fun hc => hnq (hc ▸ hq)
      rcases hinv.queuePending tid hq with hl | hl
      · rw [hl]; exact Or.inl rfl
      · rw [hl]
        simp [hne]
    · rcases List.mem_append.mp hq with hq | hq
      · have hne : tid ≠ s.nextId := fun hc => hnq (hc ▸ hq)
        rcases hinv.queuePending tid hq with hl | hl
        · rw [hl]; exact Or.inl rfl
        · rw [hl]
          simp [hne]
      · simp only [List.mem_singleton] at hq
        subst hq
        rw [hlooknone]
        simp
  · intro tid hm
    rw [List.map_append] at hm
    rcases List.mem_append.mp hm with hm | hm
    · exact lt_trans (hinv.taskLt tid hm) (Nat.lt_succ_self _)
    · simp only [List.map_cons, List.map_nil, List.mem_singleton] at hm
      subst hm
      exact Nat.lt_succ_self _
  · intro tid hq
    rcases hq' with rfl | rfl
    · exact lt_trans (hinv.queueLt tid hq) (Nat.lt_succ_self _)
    · rcases List.mem_append.mp hq with hq | hq
      · exact lt_trans (hinv.queueLt tid hq) (Nat.lt_succ_self _)
      · simp only [List.mem_singleton] at hq
        subst hq
        exact Nat.lt_succ_self _
  · intro tid hb
    exact lt_trans (hinv.busyLt tid hb) (Nat.lt_succ_self _)
  · exact hinv.workersLen

theorem schedInv_addTask (s : SchedState) (hinv : SchedInv s) :
    SchedInv (addTask s).1 := by
  by_cases hq : s.queue.length < queueCapacity
  · rw [addTask_fst_ok s hq]
    exact schedInv_add_aux s hinv _ (Or.inr rfl)
  · rw [addTask_fst_full s hq]
    exact schedInv_add_aux s hinv _ (Or.inl rfl)

theorem schedInv_pick (s : SchedState) (hinv : SchedInv s) (i tid : Nat)
    (rest : List Nat) (hq : s.queue = tid :: rest)
    (hw : s.workers.get? i = some none) :
    SchedInv { s with queue := rest,
                      workers := s.workers.set i (some tid),
                      tasks := setTaskStatus s.tasks tid TaskStatus.running } := by
  have hperm : ((s.workers.set i (some tid)).filterMap id).Perm
      (tid :: s.workers.filterMap id) := filterMap_set_some s.workers i tid hw
  have hmem : ∀ y, y ∈ (s.workers.set i (some tid)).filterMap id ↔
      (y = tid ∨ y ∈ busyIds s) := by
    intro y
    rw [hperm.mem_iff]
    simp [busyIds]
  have hqb := hinv.qbNodup
  rw [hq] at hqb
  have hqb' : ((tid :: rest) ++ busyIds s).Nodup := hqb
  rw [List.cons_append, List.nodup_cons] at hqb'
  have htid_nrb : tid ∉ rest ++ busyIds s := hqb'.1
  have htid_nb : tid ∉ busyIds s := fun h => htid_nrb (List.mem_append.mpr (Or.inr h))
  have htid_nr : tid ∉ rest := fun h => htid_nrb (List.mem_append.mpr (Or.inl h))
  refine ⟨?_, ?_, ?_, ?_, ?_, ?_, ?_, ?_, ?_⟩
  · show ((setTaskStatus s.tasks tid TaskStatus.running).map Prod.fst).Nodup
    rw [keys_setTaskStatus]
    exact hinv.keysNodup
  · show (rest ++ (s.workers.set i (some tid)).filterMap id).Nodup
    have h1 : (rest ++ (s.workers.set i (some tid)).filterMap id).Perm
        (rest ++ (tid :: busyIds s)) := List.Perm.append_left rest hperm
    have h2 : (rest ++ (tid :: busyIds s)).Perm (tid :: (rest ++ busyIds s)) :=
      List.perm_middle
    rw [(h1.trans h2).nodup_iff]
    exact List.nodup_cons.mpr ⟨htid_nrb, hqb'.2⟩
  · intro t ht
    dsimp only [busyIds]
    rw [lookup_setTaskStatus] at ht
    rw [hmem]
    by_cases h' : t = tid
    · exact Or.inl h'
    · rw [if_neg h'] at ht
      exact Or.inr (hinv.runBusy t ht)
  · intro t ht
    dsimp only [busyIds] at ht
    rw [hmem] at ht
    dsimp only
    rw [lookup_setTaskStatus]
    rcases ht with rfl | ht
    · rw [if_pos rfl]
      have hq' : t ∈ s.queue := by rw [hq]; exact List.mem_cons_self _ _
      rcases hinv.queuePending t hq' with hl | hl
      · rw [hl]; exact Or.inl rfl
      · rw [hl]; exact Or.inr rfl
    · have hne : t ≠ tid := fun hc => htid_nb (hc ▸ ht)
      rw [if_neg hne]
      exact hinv.busyRun t ht
  · intro t ht
    have hne : t ≠ tid := fun hc => htid_nr (hc ▸ ht)
    rw [lookup_setTaskStatus, if_neg hne]
    exact hinv.queuePending t (by rw [hq]; exact List.mem_cons_of_mem _ ht)
  · intro t hm
    rw [keys_setTaskStatus] at hm
    exact hinv.taskLt t hm
  · intro t ht
    exact hinv.queueLt t (by rw [hq]; exact List.mem_cons_of_mem _ ht)
  · intro t ht
    dsimp only [busyIds] at ht
    rw [hmem] at ht
    dsimp only
    rcases ht with rfl | ht
    · exact hinv.queueLt t (by rw [hq]; exact List.mem_cons_self _ _)
    · exact hinv.busyLt t ht
  · show (s.workers.set i (some tid)).length = s.numWorkers
    rw [List.length_set]
    exact hinv.workersLen

theorem schedInv_finish (s : SchedState) (hinv : SchedInv s) (i tid : Nat)
    (st : TaskStatus) (hw : s.workers.get? i = some (some tid))
    (hst : st = TaskStatus.completed ∨ st = TaskStatus.failed) :
    SchedInv { s with workers := s.workers.set i none,
                      tasks := setTaskStatus s.tasks tid st } := by
  have hperm : (tid :: (s.workers.set i none).filterMap id).Perm
      (s.workers.filterMap id) := filterMap_set_none s.workers i tid hw
  have htid_bs : tid ∈ busyIds s :=
    hperm.subset (List.mem_cons_self _ _)
  have hnodup_bs : (busyIds s).Nodup :=
    (List.nodup_append.mp hinv.qbNodup).2.1
  have hcons : (tid :: (s.workers.set i none).filterMap id).Nodup := by
    rw [hperm.nodup_iff]
    exact hnodup_bs
  have htid_nb' : tid ∉ (s.workers.set i none).filterMap id :=
    (List.nodup_cons.mp hcons).1
  have hmem : ∀ y, y ∈ (s.workers.set i none).filterMap id →
      (y ∈ busyIds s ∧ y ≠ tid) := by
    intro y hy
    constructor
    · exact hperm.subset (List.mem_cons_of_mem _ hy)
    · exact fun hc => htid_nb' (hc ▸ hy)
  have hmem' : ∀ y, y ∈ busyIds s → y ≠ tid →
      y ∈ (s.workers.set i none).filterMap id := by
    intro y hy hne
    rcases List.mem_cons.mp (hperm.symm.subset hy) with hc | hc
    · exact absurd hc hne
    · exact hc
  have hdisj : ∀ a, a ∈ s.queue → a ∉ busyIds s :=
    fun a ha hb => (List.nodup_append.mp hinv.qbNodup).2.2 ha hb
  have htid_nq : tid ∉ s.queue := fun h => hdisj tid h htid_bs
  refine ⟨?_, ?_, ?_, ?_, ?_, ?_, ?_, ?_, ?_⟩
  · show ((setTaskStatus s.tasks tid st).map Prod.fst).Nodup
    rw [keys_setTaskStatus]
    exact hinv.keysNodup
  · show (s.queue ++ (s.workers.set i none).filterMap id).Nodup
    have h1 : (s.queue ++ (tid :: (s.workers.set i none).filterMap id)).Nodup := by
      rw [(List.Perm.append_left s.queue hperm).nodup_iff]
      exact hinv.qbNodup
    exact List.Nodup.sublist
      (List.Sublist.append_left (List.sublist_cons_self _ _) s.queue) h1
  · intro t ht
    rw [lookup_setTaskStatus] at ht
    by_cases h' : t = tid
    · subst h'
      rw [if_pos rfl] at ht
      exfalso
      cases hl : s.tasks.lookup t with
      | none => rw [hl] at ht; exact Option.noConfusion ht
      | some v =>
        rw [hl] at ht
        have : st = TaskStatus.running := by simpa using ht
        rcases hst with rfl | rfl <;> exact TaskStatus.noConfusion this
    · rw [if_neg h'] at ht
      exact hmem' t (hinv.runBusy t ht) h'
  · intro t ht
    obtain ⟨hb, hne⟩ := hmem t ht
    rw [lookup_setTaskStatus, if_neg hne]
    exact hinv.busyRun t hb
  · intro t ht
    have hne : t ≠ tid := fun hc => htid_nq (hc ▸ ht)
    rw [lookup_setTaskStatus, if_neg hne]
    exact hinv.queuePending t ht
  · intro t hm
    rw [keys_setTaskStatus] at hm
    exact hinv.taskLt t hm
  · exact hinv.queueLt
  · intro t ht
    exact hinv.busyLt t (hmem t ht).1
  · show (s.workers.set i none).length = s.numWorkers
    rw [List.length_set]
    exact hinv.workersLen

theorem keys_filter_sublist (l : List (Nat × TaskStatus))
    (f : Nat × TaskStatus → Bool) :
    ((l.filter f).map Prod.fst).Sublist (l.map Prod.fst) :=
  List.Sublist.map Prod.fst (List.filter_sublist l)

theorem schedInv_removeTask (s : SchedState) (tid : Nat) (hinv : SchedInv s) :
    SchedInv (removeTask s tid).1 := by
  rcases removeTask_fst_cases s tid with h | h
  · rw [h]; exact hinv
  · rw [h]
    refine ⟨?_, hinv.qbNodup, ?_, ?_, ?_, ?_, hinv.queueLt, hinv.busyLt,
      hinv.workersLen⟩
    · exact hinv.keysNodup.sublist (keys_filter_sublist s.tasks _)
    · intro t ht
      rw [lookup_filterKey] at ht
      by_cases h' : t = tid
      · rw [if_pos h'] at ht
        exact Option.noConfusion ht
      · rw [if_neg h'] at ht
        exact hinv.runBusy t ht
    · intro t hb
      dsimp only
      rw [lookup_filterKey]
      by_cases h' : t = tid
      · rw [if_pos h']
        exact Or.inr rfl
      · rw [if_neg h']
        exact hinv.busyRun t hb
    · intro t hq
      dsimp only
      rw [lookup_filterKey]
      by_cases h' : t = tid
      · rw [if_pos h']
        exact Or.inr rfl
      · rw [if_neg h']
        exact hinv.queuePending t hq
    · intro t hm
      exact hinv.taskLt t ((keys_filter_sublist s.tasks _).subset hm)

theorem schedInv_clearFailed (s : SchedState) (hinv : SchedInv s) :
    SchedInv (clearFailedTasks s) := by
  refine ⟨?_, hinv.qbNodup, ?_, ?_, ?_, ?_, hinv.queueLt, hinv.busyLt,
    hinv.workersLen⟩
  · exact hinv.keysNodup.sublist (keys_filter_sublist s.tasks _)
  · intro t ht
    rw [show (clearFailedTasks s).tasks
        = s.tasks.filter (fun p => !(p.2 == TaskStatus.failed)) from rfl,
      lookup_filterFailed _ _ hinv.keysNodup] at ht
    by_cases h' : s.tasks.lookup t = some TaskStatus.failed
    · rw [if_pos h'] at ht
      exact Option.noConfusion ht
    · rw [if_neg h'] at ht
      exact hinv.runBusy t ht
  · intro t hb
    rw [show (clearFailedTasks s).tasks
        = s.tasks.filter (fun p => !(p.2 == TaskStatus.failed)) from rfl,
      lookup_filterFailed _ _ hinv.keysNodup]
    by_cases h' : s.tasks.lookup t = some TaskStatus.failed
    · rw [if_pos h']
      exact Or.inr rfl
    · rw [if_neg h']
      exact hinv.busyRun t hb
  · intro t hq
    rw [show (clearFailedTasks s).tasks
        = s.tasks.filter (fun p => !(p.2 == TaskStatus.failed)) from rfl,
      lookup_filterFailed _ _ hinv.keysNodup]
    by_cases h' : s.tasks.lookup t = some TaskStatus.failed
    · rw [if_pos h']
      exact Or.inr rfl
    · rw [if_neg h']
      exact hinv.queuePending t hq
  · intro t hm
    exact hinv.taskLt t ((keys_filter_sublist s.tasks _).subset hm)

theorem schedInv_step {s s' : SchedState} (hinv : SchedInv s)
    (h : SchedStep s s') : SchedInv s' := by
  cases h with
  | add => exact schedInv_addTask s hinv
  | pick i tid rest hq hw => exact schedInv_pick s hinv i tid rest hq hw
  | finish i tid st hw hst => exact schedInv_finish s hinv i tid st hw hst
  | remove tid => exact schedInv_removeTask s tid hinv
  | clearFailed => exact schedInv_clearFailed s hinv

theorem schedInv_reaches {n : Nat} {s : SchedState}
    (h : SchedReaches (initSched n) s) : SchedInv s := by
  induction h with
  | refl => exact schedInv_init n
  | tail hab hbc ih => exact schedInv_step ih hbc

/-- The allowed one-step changes of a task's observable status: no
change; creation as `Pending`; `Pending → Running` (a worker picks the
task up); `Running → Completed/Failed` (the worker finishes); or
deletion of a task that is not `Running` (RemoveTask /
ClearFailedTasks). -/
def statusChangeOk (a b : Option TaskStatus) : Prop :=
  a = b ∨
  (a = none ∧ b = some TaskStatus.pending) ∨
  (a = some TaskStatus.pending ∧ b = some TaskStatus.running) ∨
  (a = some TaskStatus.running ∧
    (b = some TaskStatus.completed ∨ b = some TaskStatus.failed)) ∨
  (a ≠ some TaskStatus.running ∧ a ≠ none ∧ b = none)

theorem removeTask_fst_cases' (s : SchedState) (tid : Nat) :
    (removeTask s tid).1 = s ∨
    ((removeTask s tid).1
        = { s with tasks := s.tasks.filter (fun p => !(p.1 == tid)) } ∧
      ∃ st, s.tasks.lookup tid = some st ∧ st ≠ TaskStatus.running) := by
  unfold removeTask
  cases hl : s.tasks.lookup tid with
  | none => left; rfl
  | some st =>
    by_cases h : st = TaskStatus.running
    · left; simp [h]
    · right
      refine ⟨by simp [h], st, rfl, h⟩

theorem mem_busyIds_of_get? {s : SchedState} {i tid : Nat}
    (hw : s.workers.get? i = some (some tid)) : tid ∈ busyIds s := by
  unfold busyIds
  exact List.mem_filterMap.mpr ⟨some tid, List.get?_mem hw, rfl⟩

theorem schedStep_statusChange {s s' : SchedState} (hinv : SchedInv s)
    (h : SchedStep s s') (tid : Nat) :
    statusChangeOk (taskStatus s tid) (taskStatus s' tid) := by
  cases h with
  | add =>
    have htasks : (addTask s).1.tasks
        = s.tasks ++ [(s.nextId, TaskStatus.pending)] := by
      by_cases hq : s.queue.length < queueCapacity
      · rw [addTask_fst_ok s hq]
      · rw [addTask_fst_full s hq]
    unfold taskStatus
    rw [htasks, lookup_append_single]
    cases hl : s.tasks.lookup tid with
    | some st => exact Or.inl rfl
    | none =>
      by_cases h' : tid = s.nextId
      · rw [if_pos h']
        exact Or.inr (Or.inl ⟨rfl, rfl⟩)
      · rw [if_neg h']
        exact Or.inl rfl
  | pick i tid₀ rest hq hw =>
    unfold taskStatus
    dsimp only
    rw [lookup_setTaskStatus]
    by_cases h' : tid = tid₀
    · rw [if_pos h']
      subst h'
      have hmemq : tid ∈ s.queue := by
        rw [hq]; exact List.mem_cons_self _ _
      rcases hinv.queuePending tid hmemq with hl | hl <;> rw [hl]
      · exact Or.inr (Or.inr (Or.inl ⟨rfl, rfl⟩))
      · exact Or.inl rfl
    · rw [if_neg h']
      exact Or.inl rfl
  | finish i tid₀ st hw hst =>
    unfold taskStatus
    dsimp only
    rw [lookup_setTaskStatus]
    by_cases h' : tid = tid₀
    · rw [if_pos h']
      subst h'
      rcases hinv.busyRun tid (mem_busyIds_of_get? hw) with hl | hl <;> rw [hl]
      · rcases hst with rfl | rfl
        · exact Or.inr (Or.inr (Or.inr (Or.inl ⟨rfl, Or.inl rfl⟩)))
        · exact Or.inr (Or.inr (Or.inr (Or.inl ⟨rfl, Or.inr rfl⟩)))
      · exact Or.inl rfl
    · rw [if_neg h']
      exact Or.inl rfl
  | remove tid₀ =>
    rcases removeTask_fst_cases' s tid₀ with hr | ⟨hr, st₀, hl₀, hne₀⟩
    · rw [hr]
      exact Or.inl rfl
    · rw [hr]
      unfold taskStatus
      dsimp only
      rw [lookup_filterKey]
      by_cases h' : tid = tid₀
      · rw [if_pos h']
        subst h'
        rw [hl₀]
        refine Or.inr (Or.inr (Or.inr (Or.inr ⟨?_, by simp, rfl⟩)))
        intro hc
        exact hne₀ (by simpa using hc)
      · rw [if_neg h']
        exact Or.inl rfl
  | clearFailed =>
    unfold taskStatus
    rw [show (clearFailedTasks s).tasks
        = s.tasks.filter (fun p => !(p.2 == TaskStatus.failed)) from rfl,
      lookup_filterFailed _ _ hinv.keysNodup]
    by_cases h' : s.tasks.lookup tid = some TaskStatus.failed
    · rw [if_pos h', h']
      exact Or.inr (Or.inr (Or.inr (Or.inr ⟨by simp, by simp, rfl⟩)))
    · rw [if_neg h']
      exact Or.inl rfl

theorem schedStep_new_task {s s' : SchedState} (h : SchedStep s s') (tid : Nat)
    (ha : taskStatus s tid = none) (hb : taskStatus s' tid ≠ none) :
    tid = s.nextId := by
  unfold taskStatus at ha hb
  have hnk : tid ∉ s.tasks.map Prod.fst := (lookup_eq_none_iff _ _).mp ha
  cases h with
  | add =>
    have htasks : (addTask s).1.tasks
        = s.tasks ++ [(s.nextId, TaskStatus.pending)] := by
      by_cases hq : s.queue.length < queueCapacity
      · rw [addTask_fst_ok s hq]
      · rw [addTask_fst_full s hq]
    rw [htasks, lookup_append_single, ha] at hb
    by_cases h' : tid = s.nextId
    · exact h'
    · rw [if_neg h'] at hb
      exact absurd rfl hb
  | pick i tid₀ rest hq hw =>
    exfalso
    apply hb
    dsimp only
    rw [lookup_setTaskStatus]
    by_cases h' : tid = tid₀
    · rw [if_pos h', ha]
      rfl
    · rw [if_neg h']
      exact ha
  | finish i tid₀ st hw hst =>
    exfalso
    apply hb
    dsimp only
    rw [lookup_setTaskStatus]
    by_cases h' : tid = tid₀
    · rw [if_pos h', ha]
      rfl
    · rw [if_neg h']
      exact ha
  | remove tid₀ =>
    exfalso
    apply hb
    rcases removeTask_fst_cases s tid₀ with hr | hr <;> rw [hr]
    · exact ha
    · dsimp only
      exact lookup_filter_of_not_mem _ hnk
  | clearFailed =>
    exfalso
    apply hb
    exact lookup_filter_of_not_mem _ hnk

theorem terminal_was_running {n tid : Nat} {st : TaskStatus}
    (hterm : st.isTerminal = true) {s : SchedState}
    (h : SchedReaches (initSched n) s) :
    taskStatus s tid = some st →
    ∃ m, SchedReaches (initSched n) m ∧ SchedReaches m s ∧
      taskStatus m tid = some TaskStatus.running := by
  induction h with
  | refl =>
    intro hst
    simp [taskStatus, initSched, List.lookup] at hst
  | tail hab hbc ih =>
    intro hst
    have hinvb := schedInv_reaches hab
    rcases schedStep_statusChange hinvb hbc tid with heq | ⟨ha, hb⟩ |
      ⟨ha, hb⟩ | ⟨ha, hb⟩ | ⟨ha, ha', hb⟩
    · obtain ⟨m, h1, h2, h3⟩ := ih (heq.trans hst)
      exact ⟨m, h1, Relation.ReflTransGen.tail h2 hbc, h3⟩
    · rw [hst] at hb
      obtain rfl : st = TaskStatus.pending := by simpa using hb
      exact absurd hterm (by simp [TaskStatus.isTerminal])
    · rw [hst] at hb
      obtain rfl : st = TaskStatus.running := by simpa using hb
      exact absurd hterm (by simp [TaskStatus.isTerminal])
    · exact ⟨_, hab, Relation.ReflTransGen.single hbc, ha⟩
    · rw [hst] at hb
      exact Option.noConfusion hb

theorem terminal_frozen {n : Nat} {s₁ s₂ : SchedState}
    (h₁ : SchedReaches (initSched n) s₁) (h : SchedReaches s₁ s₂)
    {tid : Nat} {st : TaskStatus} (hst : taskStatus s₁ tid = some st)
    (hterm : st.isTerminal = true) :
    taskStatus s₂ tid = some st ∨ taskStatus s₂ tid = none := by
  have htlt : tid < s₁.nextId :=
    (schedInv_reaches h₁).taskLt tid (mem_keys_of_lookup hst)
  induction h with
  | refl => exact Or.inl hst
  | tail hab hbc ih =>
    have hinvb := schedInv_reaches (Relation.ReflTransGen.trans h₁ hab)
    rcases ih with hb | hb
    · rcases schedStep_statusChange hinvb hbc tid with heq | ⟨ha, hb'⟩ |
        ⟨ha, hb'⟩ | ⟨ha, hb'⟩ | ⟨ha, ha', hb'⟩
      · exact Or.inl (heq ▸ hb)
      · rw [hb] at ha
        exact Option.noConfusion ha
      · rw [hb] at ha
        obtain rfl : st = TaskStatus.pending := by simpa using ha
        exact absurd hterm (by simp [TaskStatus.isTerminal])
      · rw [hb] at ha
        obtain rfl : st = TaskStatus.running := by simpa using ha
        exact absurd hterm (by simp [TaskStatus.isTerminal])
      · exact Or.inr hb'
    · right
      by_contra hc
      have hnew := schedStep_new_task hbc tid hb hc
      have hle := nextId_le_reaches hab
      omega

/-! ## Claim C4: the task lifecycle -/

/-- Claim C4: over any execution of the scheduler, a task's observable
status only moves along `Pending → Running → Completed/Failed`: every
single step is one of the allowed changes, every task observed in a
terminal status was `Running` at some earlier reachable state, and
after reaching a terminal status a task never changes status again (it
can only be deleted). -/
theorem claim_C4_task_lifecycle (n : Nat) :
    (∀ s s' : SchedState, SchedReaches (initSched n) s → SchedStep s s' →
        ∀ tid, statusChangeOk (taskStatus s tid) (taskStatus s' tid)) ∧
    (∀ (s : SchedState) (tid : Nat) (st : TaskStatus),
        SchedReaches (initSched n) s → taskStatus s tid = some st →
        st.isTerminal = true →
        ∃ m, SchedReaches (initSched n) m ∧ SchedReaches m s ∧
          taskStatus m tid = some TaskStatus.running) ∧
    (∀ (s₁ s₂ : SchedState) (tid : Nat) (st : TaskStatus),
        SchedReaches (initSched n) s₁ → SchedReaches s₁ s₂ →
        taskStatus s₁ tid = some st → st.isTerminal = true →
        taskStatus s₂ tid = some st ∨ taskStatus s₂ tid = none) :=
  ⟨fun _ _ hr hstep tid => schedStep_statusChange (schedInv_reaches hr) hstep tid,
   fun _ _ _ hr hst hterm => terminal_was_running hterm hr hst,
   fun _ _ _ _ h₁ h hst hterm => terminal_frozen h₁ h hst hterm⟩

/-- A three-step concrete execution used by the scheduler witnesses:
one task is added, picked up by the single worker, and completed. -/
def execS1 : SchedState := (addTask (initSched 1)).1

def execS2 : SchedState :=
  { execS1 with queue := [], workers := execS1.workers.set 0 (some 0),
                tasks := setTaskStatus execS1.tasks 0 TaskStatus.running }

def execS3 : SchedState :=
  { execS2 with workers := execS2.workers.set 0 none,
                tasks := setTaskStatus execS2.tasks 0 TaskStatus.completed }

theorem execStep1 : SchedStep (initSched 1) execS1 := SchedStep.add _

theorem execStep2 : SchedStep execS1 execS2 :=
  SchedStep.pick execS1 0 0 [] (by decide) (by decide)

theorem execStep3 : SchedStep execS2 execS3 :=
  SchedStep.finish execS2 0 0 TaskStatus.completed (by decide) (Or.inl rfl)

theorem execReach2 : SchedReaches (initSched 1) execS2 :=
  Relation.ReflTransGen.tail (Relation.ReflTransGen.single execStep1) execStep2

theorem execReach3 : SchedReaches (initSched 1) execS3 :=
  Relation.ReflTransGen.tail execReach2 execStep3

theorem claim_C4_witness :
    taskStatus execS3 0 = some TaskStatus.completed ∧
    TaskStatus.isTerminal TaskStatus.completed = true ∧
    (∃ m, SchedReaches (initSched 1) m ∧ SchedReaches m execS3 ∧
      taskStatus m 0 = some TaskStatus.running) :=
  ⟨by decide, by decide,
    (claim_C4_task_lifecycle 1).2.1 execS3 0 TaskStatus.completed execReach3
      (by decide) (by decide)⟩

/-! ## Claim C5: Running tasks never exceed the worker count -/

/-- Claim C5: in every reachable state of a scheduler constructed with
`n` workers, at most `n` tasks are `Running`. -/
theorem claim_C5_running_bounded (n : Nat) (s : SchedState)
    (h : SchedReaches (initSched n) s) : runningCount s ≤ n := by
  have hinv := schedInv_reaches h
  have hnw : s.numWorkers = n := numWorkers_eq_reaches h
  have hnd : ((s.tasks.filter (fun p => p.2 == TaskStatus.running)).map
      Prod.fst).Nodup :=
    hinv.keysNodup.sublist (keys_filter_sublist s.tasks _)
  have hsub : ∀ x ∈ (s.tasks.filter (fun p => p.2 == TaskStatus.running)).map
      Prod.fst, x ∈ busyIds s := by
    intro x hx
    obtain ⟨p, hp, rfl⟩ := List.mem_map.mp hx
    obtain ⟨hpl, hps⟩ := List.mem_filter.mp hp
    have hps' : p.2 = TaskStatus.running := by simpa using hps
    have hlook : s.tasks.lookup p.1 = some p.2 :=
      lookup_eq_of_mem_of_nodup hinv.keysNodup (by
        rw [show (p.1, p.2) = p from rfl]
        exact hpl)
    exact hinv.runBusy p.1 (by rw [hps'] at hlook; exact hlook)
  have h1 : ((s.tasks.filter (fun p => p.2 == TaskStatus.running)).map
      Prod.fst).length ≤ (busyIds s).length := by
    calc ((s.tasks.filter (fun p => p.2 == TaskStatus.running)).map
        Prod.fst).length
        = ((s.tasks.filter (fun p => p.2 == TaskStatus.running)).map
            Prod.fst).toFinset.card := (List.toFinset_card_of_nodup hnd).symm
      _ ≤ (busyIds s).toFinset.card := by
          apply Finset.card_le_card
          intro x hx
          rw [List.mem_toFinset] at hx ⊢
          exact hsub x hx
      _ ≤ (busyIds s).length := List.toFinset_card_le _
  have h2 : (busyIds s).length ≤ s.workers.length :=
    List.length_filterMap_le _ _
  calc runningCount s
      = ((s.tasks.filter (fun p => p.2 == TaskStatus.running)).map
          Prod.fst).length := (List.length_map _ _).symm
    _ ≤ (busyIds s).length := h1
    _ ≤ s.workers.length := h2
    _ = n := hinv.workersLen.trans hnw

theorem claim_C5_witness :
    SchedReaches (initSched 1) execS2 ∧
    runningCount execS2 = 1 ∧
    runningCount execS2 ≤ 1 :=
  ⟨execReach2, by decide, claim_C5_running_bounded 1 execS2 execReach2⟩

/-! ## Claim C6: a full queue rejects AddTask but records the task -/

theorem pending_never_runs_step {s s' : SchedState} {tid : Nat}
    (hinv : SchedInv s) (h : SchedStep s s')
    (hq : tid ∉ s.queue) (hb : tid ∉ busyIds s) (hlt : tid < s.nextId)
    (hst : taskStatus s tid ≠ some TaskStatus.running) :
    tid ∉ s'.queue ∧ tid ∉ busyIds s' ∧ tid < s'.nextId ∧
      taskStatus s' tid ≠ some TaskStatus.running := by
  cases h with
  | add =>
    have hne : tid ≠ s.nextId := Nat.ne_of_lt hlt
    have htasks : (addTask s).1.tasks
        = s.tasks ++ [(s.nextId, TaskStatus.pending)] := by
      by_cases hc : s.queue.length < queueCapacity
      · rw [addTask_fst_ok s hc]
      · rw [addTask_fst_full s hc]
    have hstat : taskStatus (addTask s).1 tid = taskStatus s tid := by
      unfold taskStatus
      rw [htasks, lookup_append_single]
      cases hl : s.tasks.lookup tid with
      | some st => rfl
      | none => rw [if_neg hne]
    have hqueue : tid ∉ (addTask s).1.queue := by
      by_cases hc : s.queue.length < queueCapacity
      · rw [addTask_fst_ok s hc]
        intro hm
        rcases List.mem_append.mp hm with hm | hm
        · exact hq hm
        · simp only [List.mem_singleton] at hm
          exact hne hm
      · rw [addTask_fst_full s hc]
        exact hq
    have hbusy : tid ∉ busyIds (addTask s).1 := by
      by_cases hc : s.queue.length < queueCapacity
      · rw [addTask_fst_ok s hc]; exact hb
      · rw [addTask_fst_full s hc]; exact hb
    have hnext : tid < (addTask s).1.nextId :=
      lt_of_lt_of_le hlt (nextId_le_step (SchedStep.add s))
    exact ⟨hqueue, hbusy, hnext, fun hc => hst (hstat ▸ hc)⟩
  | pick i tid₀ rest hq₀ hw =>
    have htne : tid ≠ tid₀ := by
      intro hc
      apply hq
      rw [hq₀, hc]
      exact List.mem_cons_self _ _
    refine ⟨?_, ?_, hlt, ?_⟩
    · intro hm
      apply hq
      rw [hq₀]
      exact List.mem_cons_of_mem _ hm
    · intro hm
      have hperm := filterMap_set_some s.workers i tid₀ hw
      rcases List.mem_cons.mp (hperm.subset hm) with hc | hc
      · exact htne hc
      · exact hb hc
    · unfold taskStatus
      dsimp only
      rw [lookup_setTaskStatus, if_neg htne]
      exact hst
  | finish i tid₀ st hw hst₀ =>
    have htne : tid ≠ tid₀ := by
      intro hc
      exact hb (hc ▸ mem_busyIds_of_get? hw)
    refine ⟨hq, ?_, hlt, ?_⟩
    · intro hm
      have hperm := filterMap_set_none s.workers i tid₀ hw
      exact hb (hperm.subset (List.mem_cons_of_mem _ hm))
    · unfold taskStatus
      dsimp only
      rw [lookup_setTaskStatus, if_neg htne]
      exact hst
  | remove tid₀ =>
    rcases removeTask_fst_cases s tid₀ with hr | hr <;> rw [hr]
    · exact ⟨hq, hb, hlt, hst⟩
    · refine ⟨hq, hb, hlt, ?_⟩
      unfold taskStatus
      dsimp only
      rw [lookup_filterKey]
      by_cases h' : tid = tid₀
      · rw [if_pos h']
        exact fun hc => Option.noConfusion hc
      · rw [if_neg h']
        exact hst
  | clearFailed =>
    refine ⟨hq, hb, hlt, ?_⟩
    unfold taskStatus
    rw [show (clearFailedTasks s).tasks
        = s.tasks.filter (fun p => !(p.2 == TaskStatus.failed)) from rfl,
      lookup_filterFailed _ _ hinv.keysNodup]
    by_cases h' : s.tasks.lookup tid = some TaskStatus.failed
    · rw [if_pos h']
      exact fun hc => Option.noConfusion hc
    · rw [if_neg h']
      exact hst

theorem pending_never_runs_reaches {s s' : SchedState} {tid : Nat} {n : Nat}
    (hreach : SchedReaches (initSched n) s) (h : SchedReaches s s')
    (hq : tid ∉ s.queue) (hb : tid ∉ busyIds s) (hlt : tid < s.nextId)
    (hst : taskStatus s tid ≠ some TaskStatus.running) :
    taskStatus s' tid ≠ some TaskStatus.running := by
  suffices hgen : tid ∉ s'.queue ∧ tid ∉ busyIds s' ∧ tid < s'.nextId ∧
      taskStatus s' tid ≠ some TaskStatus.running from hgen.2.2.2
  induction h with
  | refl => exact ⟨hq, hb, hlt, hst⟩
  | tail hab hbc ih =>
    have hinvb := schedInv_reaches (Relation.ReflTransGen.trans hreach hab)
    exact pending_never_runs_step hinvb hbc ih.1 ih.2.1 ih.2.2.1 ih.2.2.2

/-- Claim C6: when the queue holds `queueCapacity` (100) ids, `AddTask`
returns an error synchronously; the task is nonetheless stored as
`Pending`, so `GetTask` finds it in `Pending` status, and in every
later reachable state that task is never `Running`. -/
theorem claim_C6_queue_full (n : Nat) (s : SchedState)
    (h : SchedReaches (initSched n) s)
    (hfull : s.queue.length = queueCapacity) :
    (addTask s).2 = .error "task queue is full" ∧
    getTask (addTask s).1 s.nextId = .ok TaskStatus.pending ∧
    (∀ s', SchedReaches (addTask s).1 s' →
      taskStatus s' s.nextId ≠ some TaskStatus.running) := by
  have hinv := schedInv_reaches h
  have hnlt : ¬ s.queue.length < queueCapacity := by omega
  have hnt : s.nextId ∉ s.tasks.map Prod.fst :=
    fun hm => absurd (hinv.taskLt _ hm) (lt_irrefl _)
  have hlooknone : s.tasks.lookup s.nextId = none :=
    (lookup_eq_none_iff _ _).mpr hnt
  have hfst := addTask_fst_full s hnlt
  have hlookup : (addTask s).1.tasks.lookup s.nextId
      = some TaskStatus.pending := by
    rw [hfst]
    dsimp only
    rw [lookup_append_single, hlooknone]
    simp
  refine ⟨?_, ?_, ?_⟩
  · simp [addTask, hnlt]
  · unfold getTask
    rw [hlookup]
  · intro s' hs'
    have hreach1 : SchedReaches (initSched n) (addTask s).1 :=
      Relation.ReflTransGen.tail h (SchedStep.add s)
    refine pending_never_runs_reaches hreach1 hs' ?_ ?_ ?_ ?_
    · rw [hfst]
      exact fun hm => absurd (hinv.queueLt _ hm) (lt_irrefl _)
    · rw [hfst]
      exact fun hm => absurd (hinv.busyLt _ hm) (lt_irrefl _)
    · rw [hfst]
      exact Nat.lt_succ_self _
    · unfold taskStatus
      rw [hlookup]
      exact fun hc => TaskStatus.noConfusion (Option.some_injective _ hc)

/-- One hundred consecutive `AddTask` calls, used to exhibit a full
queue for the C6 witness. -/
def addN : Nat → SchedState → SchedState
  | 0, s => s
  | k + 1, s => addN k (addTask s).1

theorem reaches_addN (k : Nat) (s : SchedState) :
    SchedReaches s (addN k s) := by
  induction k generalizing s with
  | zero => exact Relation.ReflTransGen.refl
  | succ k ih =>
    exact Relation.ReflTransGen.trans
      (Relation.ReflTransGen.single (SchedStep.add s)) (ih (addTask s).1)

def fullState : SchedState := addN queueCapacity (initSched 1)

set_option maxRecDepth 40000 in
theorem claim_C6_witness :
    SchedReaches (initSched 1) fullState ∧
    fullState.queue.length = queueCapacity ∧
    ((addTask fullState).2 = .error "task queue is full" ∧
      getTask (addTask fullState).1 fullState.nextId
        = .ok TaskStatus.pending ∧
      (∀ s', SchedReaches (addTask fullState).1 s' →
        taskStatus s' fullState.nextId ≠ some TaskStatus.running)) :=
  ⟨reaches_addN queueCapacity (initSched 1), by decide,
    claim_C6_queue_full 1 fullState
      (reaches_addN queueCapacity (initSched 1)) (by decide)⟩

/-! ## Claim C8: item ingestion is idempotent keyed by (feed_id, guid) -/

/-- The upsert key of an `items` row. -/
def itemKey (it : Item) : Int × String := (it.feedId, it.guid)

/-- The upsert key of `UpsertItem` parameters. -/
def pKey (p : UpsertItemParams) : Int × String := (p.feedId, p.guid)

/-- The mutable columns of an `items` row (those the upsert's
`DO UPDATE SET` overwrites). -/
def mutOf (it : Item) : String × String × String × String × Option Int :=
  (it.title, it.description, it.content, it.link, it.published)

/-- The mutable columns carried by `UpsertItem` parameters. -/
def pMutOf (p : UpsertItemParams) :
    String × String × String × String × Option Int :=
  (p.title, p.description, p.content, p.link, p.published)

/-- The last parameter record in `ps` writing to key `k`, if any. -/
def lastWrite (ps : List UpsertItemParams) (k : Int × String) :
    Option UpsertItemParams :=
  ps.reverse.find? (fun p => decide (pKey p = k))

/-- A key occurs among some rows. -/
def KeyIn (k : Int × String) (rows : List Item) : Prop :=
  ∃ it ∈ rows, itemKey it = k

theorem itemKeyMatches_iff (p : UpsertItemParams) (it : Item) :
    itemKeyMatches p it = true ↔ itemKey it = pKey p := by
  unfold itemKeyMatches itemKey pKey
  rw [Prod.mk.injEq]
  simp

theorem itemKey_overwriteItem (it : Item) (p : UpsertItemParams) :
    itemKey (overwriteItem it p) = itemKey it := rfl

theorem id_overwriteItem (it : Item) (p : UpsertItemParams) :
    (overwriteItem it p).id = it.id := rfl

theorem mutOf_overwriteItem (it : Item) (p : UpsertItemParams) :
    mutOf (overwriteItem it p) = pMutOf p := rfl

theorem itemKey_newItemRow (rowId : Int) (p : UpsertItemParams) :
    itemKey (newItemRow rowId p) = pKey p := rfl

theorem item_ext {a b : Item} (hid : a.id = b.id)
    (hkey : itemKey a = itemKey b) (hmut : mutOf a = mutOf b) : a = b := by
  unfold itemKey at hkey
  unfold mutOf at hmut
  rw [Prod.mk.injEq] at hkey
  rw [Prod.mk.injEq, Prod.mk.injEq, Prod.mk.injEq, Prod.mk.injEq] at hmut
  obtain ⟨hk1, hk2⟩ := hkey
  obtain ⟨h1, h2, h3, h4, h5⟩ := hmut
  cases a
  cases b
  simp only [Item.mk.injEq]
  exact ⟨hid, hk1, hk2, h1, h2, h3, h4, h5⟩

theorem any_matches_iff (rows : List Item) (p : UpsertItemParams) :
    rows.any (itemKeyMatches p) = true ↔ KeyIn (pKey p) rows := by
  rw [List.any_eq_true]
  constructor
  · rintro ⟨it, hit, hm⟩
    exact ⟨it, hit, (itemKeyMatches_iff p it).mp hm⟩
  · rintro ⟨it, hit, hk⟩
    exact ⟨it, hit, (itemKeyMatches_iff p it).mpr hk⟩

/-- The per-row rewrite applied by the conflict branch of the upsert. -/
def upsertMap (p : UpsertItemParams) (it : Item) : Item :=
  if itemKeyMatches p it then overwriteItem it p else it

theorem itemKey_upsertMap (p : UpsertItemParams) (it : Item) :
    itemKey (upsertMap p it) = itemKey it := by
  unfold upsertMap
  by_cases h : itemKeyMatches p it <;> simp [h, itemKey_overwriteItem]

theorem id_upsertMap (p : UpsertItemParams) (it : Item) :
    (upsertMap p it).id = it.id := by
  unfold upsertMap
  by_cases h : itemKeyMatches p it <;> simp [h, id_overwriteItem]

theorem upsertItemRows_pos (rows : List Item) (nid : Int)
    (p : UpsertItemParams) (h : rows.any (itemKeyMatches p) = true) :
    upsertItemRows rows nid p = (rows.map (upsertMap p), nid) := by
  unfold upsertItemRows upsertMap
  rw [if_pos h]

theorem upsertItemRows_neg (rows : List Item) (nid : Int)
    (p : UpsertItemParams) (h : ¬ rows.any (itemKeyMatches p) = true) :
    upsertItemRows rows nid p = (rows ++ [newItemRow nid p], nid + 1) := by
  unfold upsertItemRows
  rw [if_neg h]

theorem keyIn_upsertItemRows_of_keyIn (rows : List Item) (nid : Int)
    (p : UpsertItemParams) (k : Int × String) (h : KeyIn k rows) :
    KeyIn k (upsertItemRows rows nid p).1 := by
  obtain ⟨it, hit, hk⟩ := h
  by_cases hany : rows.any (itemKeyMatches p) = true
  · rw [upsertItemRows_pos rows nid p hany]
    exact ⟨upsertMap p it, List.mem_map.mpr ⟨it, hit, rfl⟩,
      (itemKey_upsertMap p it).trans hk⟩
  · rw [upsertItemRows_neg rows nid p hany]
    exact ⟨it, List.mem_append.mpr (Or.inl hit), hk⟩

theorem keyIn_upsertItemRows_self (rows : List Item) (nid : Int)
    (p : UpsertItemParams) : KeyIn (pKey p) (upsertItemRows rows nid p).1 := by
  by_cases hany : rows.any (itemKeyMatches p) = true
  · obtain ⟨it, hit, hk⟩ := (any_matches_iff rows p).mp hany
    rw [upsertItemRows_pos rows nid p hany]
    exact ⟨upsertMap p it, List.mem_map.mpr ⟨it, hit, rfl⟩,
      (itemKey_upsertMap p it).trans hk⟩
  · rw [upsertItemRows_neg rows nid p hany]
    exact ⟨newItemRow nid p, List.mem_append.mpr (Or.inr (List.mem_singleton.mpr rfl)),
      itemKey_newItemRow nid p⟩

/-- The whole ingestion pass as a fold of upserts over a parameter
list. -/
def applyUpserts (rows : List Item) (nid : Int)
    (ps : List UpsertItemParams) : List Item × Int :=
  ps.foldl (fun acc p => upsertItemRows acc.1 acc.2 p) (rows, nid)

theorem lastWrite_append_single (ps : List UpsertItemParams)
    (p : UpsertItemParams) (k : Int × String) :
    lastWrite (ps ++ [p]) k
      = if pKey p = k then some p else lastWrite ps k := by
  unfold lastWrite
  rw [List.reverse_append]
  by_cases h : pKey p = k
  · simp [List.find?, h]
  · simp [List.find?, h]

theorem lastWrite_cons_of_some (ps : List UpsertItemParams)
    (p q : UpsertItemParams) (k : Int × String)
    (h : lastWrite ps k = some q) : lastWrite (p :: ps) k = some q := by
  unfold lastWrite at h ⊢
  rw [List.reverse_cons]
  rw [List.find?_append, h]
  rfl

theorem lastWrite_cons_of_not_mem (ps : List UpsertItemParams)
    (p : UpsertItemParams) (h : pKey p ∉ ps.map pKey) :
    lastWrite (p :: ps) (pKey p) = some p := by
  unfold lastWrite
  rw [List.reverse_cons, List.find?_append]
  have hnone : ps.reverse.find? (fun q => decide (pKey q = pKey p)) = none := by
    rw [List.find?_eq_none]
    intro q hq
    simp only [decide_eq_true_eq]
    intro hc
    exact h (hc ▸ List.mem_map.mpr ⟨q, List.mem_reverse.mp hq, rfl⟩)
  rw [hnone]
  simp [List.find?]

theorem writtenBack_applyUpserts (ps : List UpsertItemParams) :
    ∀ (rows : List Item) (nid : Int),
    (∀ q ∈ ps, KeyIn (pKey q) (applyUpserts rows nid ps).1) ∧
    (∀ it ∈ (applyUpserts rows nid ps).1, ∀ q,
      lastWrite ps (itemKey it) = some q → mutOf it = pMutOf q) := by
  induction ps using List.reverseRecOn with
  | nil =>
    intro rows nid
    refine ⟨fun q hq => absurd hq (List.not_mem_nil q), ?_⟩
    intro it _ q hl
    unfold lastWrite at hl
    simp [List.find?] at hl
  | append_singleton ps p ih =>
    intro rows nid
    have happ : applyUpserts rows nid (ps ++ [p])
        = upsertItemRows (applyUpserts rows nid ps).1
            (applyUpserts rows nid ps).2 p := by
      unfold applyUpserts
      rw [List.foldl_append]
      rfl
    obtain ⟨ihp, ihs⟩ := ih rows nid
    constructor
    · intro q hq
      rw [happ]
      rcases List.mem_append.mp hq with hq | hq
      · exact keyIn_upsertItemRows_of_keyIn _ _ _ _ (ihp q hq)
      · rw [List.mem_singleton] at hq
        subst hq
        exact keyIn_upsertItemRows_self _ _ _
    · intro it hit q hl
      rw [happ] at hit
      rw [lastWrite_append_single] at hl
      by_cases hany : (applyUpserts rows nid ps).1.any (itemKeyMatches p) = true
      · rw [upsertItemRows_pos _ _ _ hany] at hit
        obtain ⟨it₀, hit₀, rfl⟩ := List.mem_map.mp hit
        by_cases hm : itemKeyMatches p it₀ = true
        · have hk : itemKey it₀ = pKey p := (itemKeyMatches_iff p it₀).mp hm
          have hkm : itemKey (upsertMap p it₀) = pKey p :=
            (itemKey_upsertMap p it₀).trans hk
          rw [hkm, if_pos rfl] at hl
          obtain rfl : p = q := Option.some_injective _ hl
          show mutOf (upsertMap p it₀) = pMutOf p
          unfold upsertMap
          rw [if_pos hm]
          exact mutOf_overwriteItem it₀ p
        · have hit₀' : upsertMap p it₀ = it₀ := by
            unfold upsertMap
            rw [if_neg hm]
          rw [hit₀'] at hl ⊢
          have hk : ¬ pKey p = itemKey it₀ := by
            intro hc
            exact hm ((itemKeyMatches_iff p it₀).mpr hc.symm)
          rw [if_neg hk] at hl
          exact ihs it₀ hit₀ q hl
      · rw [upsertItemRows_neg _ _ _ hany] at hit
        rcases List.mem_append.mp hit with hit | hit
        · have hk : ¬ pKey p = itemKey it := by
            intro hc
            exact hany ((any_matches_iff _ p).mpr ⟨it, hit, hc.symm⟩)
          rw [if_neg hk] at hl
          exact ihs it hit q hl
        · rw [List.mem_singleton] at hit
          subst hit
          rw [itemKey_newItemRow, if_pos rfl] at hl
          obtain rfl : p = q := Option.some_injective _ hl
          rfl

/-- The relation between an intermediate replay state and the final
first-pass state: rows correspond pointwise with equal row ids and
keys, differing at most in the mutable fields of keys that `ps` still
writes. -/
def rowRel (ps : List UpsertItemParams) (a b : Item) : Prop :=
  a.id = b.id ∧ itemKey a = itemKey b ∧ (a = b ∨ itemKey a ∈ ps.map pKey)

theorem keys_eq_of_forall₂ {ps : List UpsertItemParams}
    {zs' zs : List Item} (h : List.Forall₂ (rowRel ps) zs' zs) :
    zs'.map itemKey = zs.map itemKey := by
  induction h with
  | nil => rfl
  | cons hab _ ih =>
    simp only [List.map_cons, ih, hab.2.1]

theorem keyIn_iff_mem_map (k : Int × String) (rows : List Item) :
    KeyIn k rows ↔ k ∈ rows.map itemKey := by
  unfold KeyIn
  rw [List.mem_map]

theorem keyIn_iff_of_forall₂ {ps : List UpsertItemParams}
    {zs' zs : List Item} (h : List.Forall₂ (rowRel ps) zs' zs)
    (k : Int × String) : KeyIn k zs' ↔ KeyIn k zs := by
  rw [keyIn_iff_mem_map, keyIn_iff_mem_map, keys_eq_of_forall₂ h]

theorem forall₂_rowRel_nil {zs' zs : List Item}
    (h : List.Forall₂ (rowRel []) zs' zs) : zs' = zs := by
  induction h with
  | nil => rfl
  | cons hab _ ih =>
    rcases hab.2.2 with heq | hmem
    · rw [heq, ih]
    · exact absurd hmem (List.not_mem_nil _)

theorem relDiff_step {p : UpsertItemParams} {ps : List UpsertItemParams} :
    ∀ {zs' zs : List Item}, List.Forall₂ (rowRel (p :: ps)) zs' zs →
    (∀ b ∈ zs, ∀ q, lastWrite (p :: ps) (itemKey b) = some q →
      mutOf b = pMutOf q) →
    List.Forall₂ (rowRel ps) (zs'.map (upsertMap p)) zs := by
  intro zs' zs h hstab
  induction h with
  | nil => exact List.Forall₂.nil
  | cons hab htail ih =>
    rename_i a b l₁ l₂
    rw [List.map_cons]
    refine List.Forall₂.cons ⟨?_, ?_, ?_⟩
      (ih (fun b' hb' => hstab b' (List.mem_cons_of_mem _ hb')))
    · exact (id_upsertMap p a).trans hab.1
    · exact (itemKey_upsertMap p a).trans hab.2.1
    · by_cases hm : itemKeyMatches p a = true
      · have hk : itemKey a = pKey p := (itemKeyMatches_iff p a).mp hm
        by_cases hmem : pKey p ∈ ps.map pKey
        · exact Or.inr (((itemKey_upsertMap p a).trans hk) ▸ hmem)
        · left
          have hlw : lastWrite (p :: ps) (itemKey b) = some p := by
            rw [← hab.2.1, hk]
            exact lastWrite_cons_of_not_mem ps p hmem
          have hmb : mutOf b = pMutOf p :=
            hstab b (List.mem_cons_self _ _) p hlw
          refine item_ext ?_ ?_ ?_
          · exact (id_upsertMap p a).trans hab.1
          · exact (itemKey_upsertMap p a).trans hab.2.1
          · show mutOf (upsertMap p a) = mutOf b
            rw [hmb]
            unfold upsertMap
            rw [if_pos hm]
            exact mutOf_overwriteItem a p
      · have ha : upsertMap p a = a := by
          unfold upsertMap
          rw [if_neg hm]
        rw [ha]
        rcases hab.2.2 with heq | hmem
        · exact Or.inl heq
        · simp only [List.map_cons, List.mem_cons] at hmem
          rcases hmem with hc | hc
          · exact absurd ((itemKeyMatches_iff p a).mpr hc) hm
          · exact Or.inr hc

theorem replay_fixes (ps : List UpsertItemParams) :
    ∀ (zs zs' : List Item) (nid : Int),
    (∀ q ∈ ps, KeyIn (pKey q) zs) →
    (∀ it ∈ zs, ∀ q, lastWrite ps (itemKey it) = some q →
      mutOf it = pMutOf q) →
    List.Forall₂ (rowRel ps) zs' zs →
    applyUpserts zs' nid ps = (zs, nid) := by
  induction ps with
  | nil =>
    intro zs zs' nid _ _ hrel
    rw [show applyUpserts zs' nid [] = (zs', nid) from rfl,
      forall₂_rowRel_nil hrel]
  | cons p ps ih =>
    intro zs zs' nid hpres hstab hrel
    have hkp : KeyIn (pKey p) zs := hpres p (List.mem_cons_self _ _)
    have hkp' : KeyIn (pKey p) zs' := (keyIn_iff_of_forall₂ hrel _).mpr hkp
    have hany : zs'.any (itemKeyMatches p) = true :=
      (any_matches_iff _ _).mpr hkp'
    have hstep : applyUpserts zs' nid (p :: ps)
        = applyUpserts (zs'.map (upsertMap p)) nid ps := by
      unfold applyUpserts
      rw [List.foldl_cons, upsertItemRows_pos _ _ _ hany]
    rw [hstep]
    refine ih zs _ nid (fun q hq => hpres q (List.mem_cons_of_mem _ hq))
      (fun it hit q hl => hstab it hit q (lastWrite_cons_of_some ps p q _ hl))
      (relDiff_step hrel hstab)

theorem forall₂_rowRel_refl (ps : List UpsertItemParams) (zs : List Item) :
    List.Forall₂ (rowRel ps) zs zs :=
  List.forall₂_same.mpr (fun _ _ => ⟨rfl, rfl, Or.inl rfl⟩)

/-- Replaying the same parameter list over its own result is the
identity: the core idempotence fact for item ingestion. -/
theorem applyUpserts_idem (ps : List UpsertItemParams) (rows : List Item)
    (nid : Int) :
    applyUpserts (applyUpserts rows nid ps).1 (applyUpserts rows nid ps).2 ps
      = applyUpserts rows nid ps := by
  obtain ⟨hp, hs⟩ := writtenBack_applyUpserts ps rows nid
  rw [replay_fixes ps _ _ _ hp hs (forall₂_rowRel_refl ps _)]

theorem ingestRows_no_failures (rows : List Item) (nid : Int) (fid : Int)
    (ps : List ParsedItem) :
    ingestRows rows nid fid ps (fun _ => false)
      = applyUpserts rows nid (ps.map (itemParams fid)) := by
  rw [ingestRows_eq_filter]
  have hfil : ps.enum.filter (fun ia => !((fun _ : Nat => false) ia.1))
      = ps.enum := by simp
  rw [hfil]
  unfold applyUpserts
  rw [List.foldl_map]
  conv_rhs => rw [← List.enum_map_snd ps, List.foldl_map]

theorem upsertItem_keys_nodup (db : DB) (p : UpsertItemParams)
    (hnd : (db.items.map itemKey).Nodup) :
    ((upsertItem db p).items.map itemKey).Nodup := by
  show (((upsertItemRows db.items db.nextItemId p).1).map itemKey).Nodup
  by_cases hany : db.items.any (itemKeyMatches p) = true
  · rw [upsertItemRows_pos _ _ _ hany, List.map_map]
    have hc : (itemKey ∘ upsertMap p) = itemKey := funext (itemKey_upsertMap p)
    rw [hc]
    exact hnd
  · rw [upsertItemRows_neg _ _ _ hany, List.map_append, List.nodup_append]
    refine ⟨hnd, by simp, ?_⟩
    intro k hk hk2
    simp only [List.map_cons, List.map_nil, List.mem_singleton] at hk2
    obtain ⟨it, hit, rfl⟩ := List.mem_map.mp hk
    apply hany
    refine (any_matches_iff _ _).mpr ⟨it, hit, ?_⟩
    rw [hk2, itemKey_newItemRow]

theorem refresh_twice_items_eq (db : DB) (feedID : Int) (feed : Feed)
    (now₁ now₂ : Int) (status : Nat) (e l c : String) (pf : ParsedFeed)
    (hf : getFeed db feedID = some feed)
    (hstale : cacheFresh feed now₁ = false)
    (h2xx : 200 ≤ status ∧ status < 300) :
    (refreshFeed (refreshFeed db feedID now₁
          (.response status e l c (.ok pf)) (fun _ => false)).db
        feedID now₂ (.response status e l c (.ok pf))
        (fun _ => false)).db.items
      = (refreshFeed db feedID now₁ (.response status e l c (.ok pf))
          (fun _ => false)).db.items := by
  have h1 : refreshFeed db feedID now₁ (.response status e l c (.ok pf))
        (fun _ => false)
      = ⟨ingestItems (updateFeed (clearFeedError db feedID) feedID pf.title
          pf.description (some now₁) (if e ≠ "" then some e else none)
          (if l ≠ "" then some l else none)
          (if c ≠ "" then parseCacheControl c else none)) feedID pf.items
          (fun _ => false), .ok (), true⟩ := by
    rw [refreshFeed_of_stale _ _ hf hstale,
      refreshFeedFetch_200_ok _ _ _ _ _ _ _ _ _ _ h2xx]
  have hitems1 : (refreshFeed db feedID now₁
        (.response status e l c (.ok pf)) (fun _ => false)).db.items
      = (applyUpserts db.items db.nextItemId
          (pf.items.map (itemParams feedID))).1 := by
    rw [h1]
    show (ingestItems _ feedID pf.items (fun _ => false)).items = _
    rw [ingestItems_spec]
    show (ingestRows db.items db.nextItemId feedID pf.items
        (fun _ => false)).1 = _
    rw [ingestRows_no_failures]
  have hnext1 : (refreshFeed db feedID now₁
        (.response status e l c (.ok pf)) (fun _ => false)).db.nextItemId
      = (applyUpserts db.items db.nextItemId
          (pf.items.map (itemParams feedID))).2 := by
    rw [h1]
    show (ingestItems _ feedID pf.items (fun _ => false)).nextItemId = _
    rw [ingestItems_spec]
    show (ingestRows db.items db.nextItemId feedID pf.items
        (fun _ => false)).2 = _
    rw [ingestRows_no_failures]
  obtain ⟨feed₁, hget1⟩ : ∃ f₁, getFeed (refreshFeed db feedID now₁
      (.response status e l c (.ok pf)) (fun _ => false)).db feedID
      = some f₁ := by
    rw [h1]
    refine ⟨{ feed with title := pf.title, description := pf.description,
                        lastUpdated := some now₁,
                        etag := (if e ≠ "" then some e else none),
                        lastModified := (if l ≠ "" then some l else none),
                        cacheControlMaxAge :=
                          (if c ≠ "" then parseCacheControl c else none),
                        lastError := none, lastErrorTime := none }, ?_⟩
    show getFeed (ingestItems _ _ _ _) feedID = _
    rw [getFeed_ingestItems, getFeed_updateFeed, getFeed_clearFeedError, hf]
    rfl
  cases hfr : cacheFresh feed₁ now₂ with
  | true =>
    rw [refreshFeed_of_fresh _ _ hget1 hfr]
  | false =>
    rw [refreshFeed_of_stale _ _ hget1 hfr,
      refreshFeedFetch_200_ok _ _ _ _ _ _ _ _ _ _ h2xx]
    show (ingestItems _ feedID pf.items (fun _ => false)).items = _
    rw [ingestItems_spec]
    show (ingestRows (refreshFeed db feedID now₁
        (.response status e l c (.ok pf)) (fun _ => false)).db.items
        (refreshFeed db feedID now₁
          (.response status e l c (.ok pf)) (fun _ => false)).db.nextItemId
        feedID pf.items (fun _ => false)).1 = _
    rw [ingestRows_no_failures, hitems1, hnext1,
      applyUpserts_idem (pf.items.map (itemParams feedID)) db.items
        db.nextItemId]

/-! ### The C8 claim -/

/-- Claim C8: item ingestion is idempotent keyed by `(feed_id, guid)`:
re-ingesting an already-stored key overwrites that row's mutable
columns in place (same table length, no second row, key uniqueness is
preserved), and refreshing a feed twice with the same upstream document
leaves the item table exactly as after the first refresh. -/
theorem claim_C8_item_ingestion_idempotent :
    (∀ (db : DB) (p : UpsertItemParams), (db.items.map itemKey).Nodup →
        ((upsertItem db p).items.map itemKey).Nodup) ∧
    (∀ (rows : List Item) (nid : Int) (p : UpsertItemParams),
        rows.any (itemKeyMatches p) = true →
        (upsertItemRows rows nid p).1 = rows.map (upsertMap p) ∧
        (upsertItemRows rows nid p).1.length = rows.length ∧
        (upsertItemRows rows nid p).2 = nid) ∧
    (∀ (db : DB) (feedID : Int) (feed : Feed) (now₁ now₂ : Int)
        (status : Nat) (e l c : String) (pf : ParsedFeed),
        getFeed db feedID = some feed → cacheFresh feed now₁ = false →
        200 ≤ status ∧ status < 300 →
        (refreshFeed (refreshFeed db feedID now₁
              (.response status e l c (.ok pf)) (fun _ => false)).db
            feedID now₂ (.response status e l c (.ok pf))
            (fun _ => false)).db.items
          = (refreshFeed db feedID now₁ (.response status e l c (.ok pf))
              (fun _ => false)).db.items) := by
  refine ⟨upsertItem_keys_nodup, ?_, ?_⟩
  · intro rows nid p h
    rw [upsertItemRows_pos _ _ _ h]
    exact ⟨rfl, List.length_map _ _, rfl⟩
  · intro db feedID feed now₁ now₂ status e l c pf hf hstale h2xx
    exact refresh_twice_items_eq db feedID feed now₁ now₂ status e l c pf
      hf hstale h2xx

/-- The first entry of `sampleParsedFeed`. -/
def sampleParsedItem1 : ParsedItem :=
  { guid := "g1", title := "t1", description := "d1", content := "c1"
    link := "l1", published := some 20, mediaDescription := none }

theorem claim_C8_witness :
    getFeed sampleDB 1 = some sampleFeed ∧
    cacheFresh sampleFeed 10000 = false ∧
    (200 ≤ 200 ∧ 200 < 300) ∧
    (sampleDB.items.any
        (itemKeyMatches (itemParams 1 sampleParsedItem1))
      = true) ∧
    ((upsertItemRows sampleDB.items sampleDB.nextItemId
          (itemParams 1 sampleParsedItem1)).1.length
        = sampleDB.items.length ∧
      (refreshFeed (refreshFeed sampleDB 1 10000
            (.response 200 "v2" "Tue" "max-age=60" (.ok sampleParsedFeed))
            (fun _ => false)).db
          1 20000 (.response 200 "v2" "Tue" "max-age=60" (.ok sampleParsedFeed))
          (fun _ => false)).db.items
        = (refreshFeed sampleDB 1 10000
            (.response 200 "v2" "Tue" "max-age=60" (.ok sampleParsedFeed))
            (fun _ => false)).db.items) :=
  ⟨by decide, by decide, by decide, by decide,
    (claim_C8_item_ingestion_idempotent.2.1 sampleDB.items sampleDB.nextItemId
      (itemParams 1 sampleParsedItem1) (by decide)).2.1,
    claim_C8_item_ingestion_idempotent.2.2 sampleDB 1 sampleFeed 10000 20000
      200 "v2" "Tue" "max-age=60" sampleParsedFeed (by decide) (by decide)
      (by decide)⟩

end NewsGoat
